import Mathlib

/-!
Shallow embedding of the VisualEditor data-model transaction engine
(`modules/ve2/dm/ve.dm.Transaction.js`) and the claims about it.

The linear document data, the `Transaction` structure, the `push*`
accumulator methods and the five static builders are translated from the
source file.  The collaborating `ve.dm.Document` / `ve.dm.Node` /
`ve.Range` classes are not part of the excerpted sources, so they appear
here as an oracle interface (`Document`) whose behaviour is modelled from
the spec; theorems that depend on their guarantees carry those guarantees
as explicit hypotheses.

JavaScript numbers that can become negative (retain lengths, the running
`lengthDifference`) are modelled as `Int`; document offsets are `Nat`.
A thrown JavaScript exception is modelled as `Except.error`.
-/

set_option maxRecDepth 4000

namespace VeDm

/-- An annotation object; only its identity matters to the builders
(equality is decided by the document oracle). -/
structure Annot where
  type : String
deriving DecidableEq

/-- One item of the linear document data: either an atomic content item
or an element marker.  An opening marker optionally carries an attribute
map (`attributes` may be absent, modelling a JS object without that
property); a closing marker has a type beginning with a slash. -/
inductive Item where
  | content (char : Char)
  | element (type : String) (attributes : Option (List (String × String)))
deriving DecidableEq, Inhabited

/-- One operation of a transaction, as pushed by the `push*` methods of
`ve.dm.Transaction`.  Retain lengths are stored as `Nat`: `pushRetain`
rejects negative lengths and drops zero ones, so every stored length is
positive. -/
inductive Operation where
  | retain (length : Nat)
  | replace (remove : List Item) (insert : List Item)
  | attrChange (key : String) (fromValue : Option String) (toValue : Option String)
  | annotate (method : String) (bias : String) (ann : Annot)
deriving DecidableEq

/-- `ve.dm.Transaction`: an ordered operation list plus the running
length difference. -/
structure Transaction where
  operations : List Operation
  lengthDifference : Int
deriving DecidableEq

/-- `new ve.dm.Transaction()`. -/
def Transaction.fresh : Transaction := { operations := [], lengthDifference := 0 }

/-- Modelled from the spec: `ve.Range` is a pair of linear offsets;
`normalize()` swaps them when they are out of order. -/
structure VeRange where
  start : Nat
  end_ : Nat
deriving DecidableEq

/-- Modelled from the spec: `ve.Range.prototype.normalize`. -/
def VeRange.normalize (r : VeRange) : VeRange :=
  if r.start ≤ r.end_ then r else { start := r.end_, end_ := r.start }

/-- Modelled from the spec: one entry of a `selectNodes` result: the
touched node (identified by an abstract id), an optional partially
covered sub-`range`, and the node's inner and outer ranges. -/
structure SelectionEntry where
  node : Nat
  range : Option VeRange
  nodeRange : VeRange
  nodeOuterRange : VeRange
deriving DecidableEq

/-- Modelled from the spec: the `ve.dm.Document` surface the builders
consult, together with the `ve.dm.Node` queries they perform on selected
nodes (`canBeMergedWith`, `isContent`, `getParent`, `getOuterRange`,
`getLength`), indexed by abstract node ids.  The builders never mutate
the document, so every field is a pure function. -/
structure Document where
  data : List Item
  fixupInsertion : List Item → Nat → List Item
  selectNodes : VeRange → String → List SelectionEntry
  offsetContainsAnnot : Nat → Annot → Bool
  canBeMergedWith : Nat → Nat → Bool
  isContent : Nat → Bool
  getParent : Nat → Nat
  getOuterRange : Nat → VeRange
  getLength : Nat → Nat

/-- `Array.prototype.slice(startIdx, endIdx)` on the linear data, for
non-negative indices: the items of indices `[startIdx, min endIdx length)`. -/
def jsSlice (data : List Item) (startIdx endIdx : Nat) : List Item :=
  (data.take endIdx).drop startIdx

/-- Coalescing step of `pushRetain`: a trailing retain absorbs the new
length, anything else is followed by a fresh retain operation. -/
def retainMerge (op : Operation) (n : Nat) : List Operation :=
  match op with
  | Operation.retain l => [Operation.retain (l + n)]
  | _ => [op, Operation.retain n]

/-- Append a (positive) retain length at the end of an operation list,
coalescing with a trailing retain exactly as
`this.operations[end].length += length` does. -/
def appendRetain : List Operation → Nat → List Operation
  | [], n => [Operation.retain n]
  | [op], n => retainMerge op n
  | op :: op2 :: rest, n => op :: appendRetain (op2 :: rest) n

/-- `ve.dm.Transaction.prototype.pushRetain`: a negative length throws,
a zero length is dropped (`if ( length )`), otherwise the length is
coalesced into a trailing retain or appended as a new one. -/
def Transaction.pushRetain (tx : Transaction) (length : Int) : Except String Transaction :=
  if length < 0 then
    Except.error ("Invalid retain length, can not retain backwards:" ++ toString length)
  else if length = 0 then
    Except.ok tx
  else
    Except.ok { tx with operations := appendRetain tx.operations length.toNat }

/-- `ve.dm.Transaction.prototype.pushReplace`: a no-op replace (both
arrays empty) is dropped, otherwise the operation is appended and
`lengthDifference` updated. -/
def Transaction.pushReplace (tx : Transaction) (remove insert : List Item) : Transaction :=
  if remove.length = 0 && insert.length = 0 then
    tx
  else
    { operations := tx.operations ++ [Operation.replace remove insert],
      lengthDifference := tx.lengthDifference + ((insert.length : Int) - (remove.length : Int)) }

/-- `ve.dm.Transaction.prototype.pushReplaceElementAttribute`. -/
def Transaction.pushReplaceElementAttribute (tx : Transaction) (key : String)
    (fromValue toValue : Option String) : Transaction :=
  { tx with operations := tx.operations ++ [Operation.attrChange key fromValue toValue] }

/-- `ve.dm.Transaction.prototype.pushStartAnnotating`. -/
def Transaction.pushStartAnnotating (tx : Transaction) (method : String) (ann : Annot) :
    Transaction :=
  { tx with operations := tx.operations ++ [Operation.annotate method "start" ann] }

/-- `ve.dm.Transaction.prototype.pushStopAnnotating`. -/
def Transaction.pushStopAnnotating (tx : Transaction) (method : String) (ann : Annot) :
    Transaction :=
  { tx with operations := tx.operations ++ [Operation.annotate method "stop" ann] }

/-- `ve.dm.Transaction.newFromInsertion`. -/
def newFromInsertion (doc : Document) (offset : Nat) (insertion : List Item) :
    Except String Transaction :=
  let data := doc.data
  let fixedUp := doc.fixupInsertion insertion offset
  match Transaction.fresh.pushRetain (offset : Int) with
  | Except.error e => Except.error e
  | Except.ok tx1 =>
    let tx2 := tx1.pushReplace [] fixedUp
    tx2.pushRetain ((data.length : Int) - (offset : Int))

/-- Lines 102-110 of `newFromRemoval`: the span an entry contributes,
its full outer range when the node is entirely covered (`!selection[i].range`),
otherwise the covered sub-range. -/
def entrySpan (entry : SelectionEntry) : Nat × Nat :=
  match entry.range with
  | none => (entry.nodeOuterRange.start, entry.nodeOuterRange.end_)
  | some r => (r.start, r.end_)

/-- Lines 82-91 of `newFromRemoval`: the span removed in the mergeable
case; the outer ranges when both end nodes are completely covered,
otherwise `(first.range || first.nodeRange).start` through
`(last.range || last.nodeRange).end`. -/
def mergePoints (first last : SelectionEntry) : Nat × Nat :=
  if first.range.isNone && last.range.isNone then
    (first.nodeOuterRange.start, last.nodeOuterRange.end_)
  else
    ((first.range.getD first.nodeRange).start, (last.range.getD last.nodeRange).end_)

/-- The `for` loop of `newFromRemoval` (lines 101-133), iterating over
the per-entry spans while accumulating the pending removal
`(removeStart, removeEnd)` (JS `null` is `none`) and the flushed
`offset`. -/
def removalLoop (data : List Item) : List (Nat × Nat) → Transaction → Nat →
    Option (Nat × Nat) → Except String (Transaction × Nat × Option (Nat × Nat))
  | [], tx, offset, acc => Except.ok (tx, offset, acc)
  | (nodeStart, nodeEnd) :: rest, tx, offset, acc =>
    match acc with
    | none => removalLoop data rest tx offset (some (nodeStart, nodeEnd))
    | some (removeStart, removeEnd) =>
      if removeEnd = nodeStart then
        removalLoop data rest tx offset (some (removeStart, nodeEnd))
      else
        match tx.pushRetain ((removeStart : Int) - (offset : Int)) with
        | Except.error e => Except.error e
        | Except.ok tx1 =>
          removalLoop data rest (tx1.pushReplace (jsSlice data removeStart removeEnd) [])
            removeEnd (some (nodeStart, nodeEnd))

/-- `ve.dm.Transaction.newFromRemoval`. -/
def newFromRemoval (doc : Document) (range : VeRange) : Except String Transaction :=
  let data := doc.data
  let r := range.normalize
  if r.start = r.end_ then
    Transaction.fresh.pushRetain ((data.length : Int))
  else
    match doc.selectNodes r "covered" with
    | [] =>
      Except.error
        ("Invalid range, cannot remove from " ++ toString r.start ++ " to " ++ toString r.end_)
    | first :: rest =>
      let last := rest.getLastD first
      if doc.canBeMergedWith first.node last.node then
        let points := mergePoints first last
        match Transaction.fresh.pushRetain ((points.1 : Int)) with
        | Except.error e => Except.error e
        | Except.ok tx1 =>
          let tx2 := tx1.pushReplace (jsSlice data points.1 points.2) []
          tx2.pushRetain ((data.length : Int) - (points.2 : Int))
      else
        match removalLoop data ((first :: rest).map entrySpan) Transaction.fresh 0 none with
        | Except.error e => Except.error e
        | Except.ok (tx1, offset, acc) =>
          match acc with
          | none => tx1.pushRetain ((data.length : Int) - (offset : Int))
          | some (removeStart, removeEnd) =>
            match tx1.pushRetain ((removeStart : Int) - (offset : Int)) with
            | Except.error e => Except.error e
            | Except.ok tx2 =>
              let tx3 := tx2.pushReplace (jsSlice data removeStart removeEnd) []
              tx3.pushRetain ((data.length : Int) - (removeEnd : Int))

/-- `ve.dm.Transaction.newFromAttributeChange`.  Reading `data[offset].type`
with `offset` out of bounds is a JS `TypeError`, modelled as an error. -/
def newFromAttributeChange (doc : Document) (offset : Nat) (key : String)
    (value : Option String) : Except String Transaction :=
  let data := doc.data
  match data[offset]? with
  | none => Except.error "TypeError: can not read type of undefined"
  | some (Item.content _) => Except.error "Can not set attributes to non-element data"
  | some (Item.element type attributes) =>
    if type.data.head? = some '/' then
      Except.error "Can not set attributes on closing element"
    else
      match Transaction.fresh.pushRetain ((offset : Int)) with
      | Except.error e => Except.error e
      | Except.ok tx1 =>
        let tx2 := tx1.pushReplaceElementAttribute key
          (attributes.bind (fun m => m.lookup key)) value
        tx2.pushRetain ((data.length : Int) - (offset : Int))

/-- The `while ( i < range.end )` loop of `newFromAnnotation`
(lines 202-234), with the remaining iteration count as fuel.  Each JS
iteration ends with `span++; i++`, so a branch that resets `span` to 0
recurses with `span = 1`. -/
def annLoop (doc : Document) (method : String) (ann : Annot) :
    Nat → Nat → Nat → Bool → Transaction → Except String (Nat × Bool × Transaction)
  | 0, _, span, onFlag, tx => Except.ok (span, onFlag, tx)
  | n + 1, i, span, onFlag, tx =>
    match doc.data[i]? with
    | none => Except.error "TypeError: can not read type of undefined"
    | some (Item.element _ _) =>
      if onFlag then
        match tx.pushRetain ((span : Int)) with
        | Except.error e => Except.error e
        | Except.ok tx1 =>
          annLoop doc method ann n (i + 1) 1 false (tx1.pushStopAnnotating method ann)
      else
        annLoop doc method ann n (i + 1) (span + 1) onFlag tx
    | some (Item.content _) =>
      let covered := doc.offsetContainsAnnot i ann
      if (covered && method == "set") || (!covered && method == "clear") then
        if onFlag then
          match tx.pushRetain ((span : Int)) with
          | Except.error e => Except.error e
          | Except.ok tx1 =>
            annLoop doc method ann n (i + 1) 1 false (tx1.pushStopAnnotating method ann)
        else
          annLoop doc method ann n (i + 1) (span + 1) onFlag tx
      else
        if !onFlag then
          match tx.pushRetain ((span : Int)) with
          | Except.error e => Except.error e
          | Except.ok tx1 =>
            annLoop doc method ann n (i + 1) 1 true (tx1.pushStartAnnotating method ann)
        else
          annLoop doc method ann n (i + 1) (span + 1) onFlag tx

/-- `ve.dm.Transaction.newFromAnnotation`.  The loop starts with
`i = range.start` and `span = i`, so the retained prefix before the
first annotate already includes `[0, range.start)`. -/
def newFromAnnotation (doc : Document) (range : VeRange) (method : String) (ann : Annot) :
    Except String Transaction :=
  let data := doc.data
  let r := range.normalize
  match annLoop doc method ann (r.end_ - r.start) r.start r.start false Transaction.fresh with
  | Except.error e => Except.error e
  | Except.ok (span, onFlag, tx) =>
    match tx.pushRetain ((span : Int)) with
    | Except.error e => Except.error e
    | Except.ok tx1 =>
      let tx2 := if onFlag then tx1.pushStopAnnotating method ann else tx1
      tx2.pushRetain ((data.length : Int) - (r.end_ : Int))

/-- The `for` loop of `newFromContentBranchConversion` (lines 267-290):
`previousBranch`/`previousBranchOuterRange` are carried as an optional
pair; `branch === previousBranch` is id equality.  Reading `data[k]`
out of bounds yields JS `undefined`, which still occupies one slot of
the singleton `remove` array; it is modelled by the default item. -/
def conversionLoop (doc : Document) (data : List Item) (opening closing : Item) :
    List SelectionEntry → Transaction → Option (Nat × VeRange) →
    Except String (Transaction × Option (Nat × VeRange))
  | [], tx, prev => Except.ok (tx, prev)
  | selected :: rest, tx, prev =>
    if doc.isContent selected.node then
      let branch := doc.getParent selected.node
      let branchOuterRange := doc.getOuterRange branch
      if prev.map Prod.fst = some branch then
        conversionLoop doc data opening closing rest tx prev
      else
        let prevEnd : Nat :=
          match prev with
          | some (_, pr) => pr.end_
          | none => 0
        match tx.pushRetain ((branchOuterRange.start : Int) - (prevEnd : Int)) with
        | Except.error e => Except.error e
        | Except.ok tx1 =>
          let tx2 := tx1.pushReplace [data.getD branchOuterRange.start default] [opening]
          match tx2.pushRetain ((doc.getLength branch : Int)) with
          | Except.error e => Except.error e
          | Except.ok tx3 =>
            let tx4 := tx3.pushReplace [data.getD (branchOuterRange.end_ - 1) default] [closing]
            conversionLoop doc data opening closing rest tx4 (some (branch, branchOuterRange))
    else
      conversionLoop doc data opening closing rest tx prev

/-- `ve.dm.Transaction.newFromContentBranchConversion`.  `ve.isPlainObject(attr)`
holds exactly when an attribute map is supplied. -/
def newFromContentBranchConversion (doc : Document) (range : VeRange) (type : String)
    (attr : Option (List (String × String))) : Except String Transaction :=
  let data := doc.data
  let selection := doc.selectNodes range "leaves"
  let opening := Item.element type attr
  let closing := Item.element ("/" ++ type) none
  match conversionLoop doc data opening closing selection Transaction.fresh none with
  | Except.error e => Except.error e
  | Except.ok (tx, prev) =>
    let prevEnd : Nat :=
      match prev with
      | some (_, pr) => pr.end_
      | none => 0
    tx.pushRetain ((data.length : Int) - (prevEnd : Int))

/-! Spec-side vocabulary: the quantities and shapes the claims talk
about, written from the spec's wording so that theorems can compare the
builders' output against them. -/

/-- How many items of the original document an operation consumes: the
length of a retain, the `remove` length of a replace, nothing else. -/
def opConsumed : Operation → Nat
  | Operation.retain l => l
  | Operation.replace remove _ => remove.length
  | _ => 0

/-- The total number of original-document items a list of operations
consumes (the left hand side of the spec's sum invariant). -/
def consumedLength (ops : List Operation) : Nat := (ops.map opConsumed).sum

/-- The operations that `pushRetain n` appends to a transaction whose
last operation is not a retain: nothing for a zero length, one retain
otherwise. -/
def optRetain (n : Nat) : List Operation := if n = 0 then [] else [Operation.retain n]

/-- Whether an operation is a replace. -/
def isReplaceOp : Operation → Bool
  | Operation.replace _ _ => true
  | _ => false

/-- Spans `(s, e)` listed left to right, each non-empty and starting no
earlier than `prev` ends, the final one ending inside a document of
length `len`.  This is the shape of the spans a `covered`-mode
selection contributes (spec: entries come in document order and lie
inside the document). -/
def strictSpanChainB (len : Nat) : Nat → List (Nat × Nat) → Bool
  | prev, [] => decide (prev ≤ len)
  | prev, (s, e) :: rest => decide (prev ≤ s) && decide (s < e) && strictSpanChainB len e rest

/-- Like `strictSpanChainB` but allowing empty spans; enough for the
sum invariant. -/
def spanChainB (len : Nat) : Nat → List (Nat × Nat) → Bool
  | prev, [] => decide (prev ≤ len)
  | prev, (s, e) :: rest => decide (prev ≤ s) && decide (s ≤ e) && spanChainB len e rest

/-- Left-to-right coalescing of removal spans, starting from a pending
span: a span whose start equals the pending span's end is merged into
it, anything else flushes the pending span. -/
def coalesceFrom : Nat × Nat → List (Nat × Nat) → List (Nat × Nat)
  | (rs, re), [] => [(rs, re)]
  | (rs, re), (s, e) :: rest =>
    if re = s then coalesceFrom (rs, e) rest else (rs, re) :: coalesceFrom (s, e) rest

/-- Coalesce a list of removal spans (spec: contiguous removal spans
are merged into a single replace). -/
def coalesceSpans : List (Nat × Nat) → List (Nat × Nat)
  | [] => []
  | sp :: rest => coalesceFrom sp rest

/-- The operation list the spec prescribes for removing the given
(coalesced, gap-separated) spans from a document of length `len`: a
retain for each gap, a replace removing each span, and a final retain
up to the end of the document. -/
def removalOpsFrom (data : List Item) (len : Nat) : List (Nat × Nat) → Nat → List Operation
  | [], offset => optRetain (len - offset)
  | (s, e) :: rest, offset =>
    optRetain (s - offset) ++ Operation.replace (jsSlice data s e) [] ::
      removalOpsFrom data len rest e

/-- Whether the item at offset `j` is eligible for the annotate spans
of `newFromAnnotation doc range method ann`: it must be a content item,
and it is skipped when it already carries the annotation (method
`set`) or does not carry it (method `clear`). -/
def annEligible (doc : Document) (method : String) (ann : Annot) (j : Nat) : Bool :=
  match doc.data[j]? with
  | some (Item.content _) =>
    let covered := doc.offsetContainsAnnot j ann
    !((covered && method == "set") || (!covered && method == "clear"))
  | _ => false

/-- Reading cursor and annotating flag after one operation: retains and
replaces advance the cursor, an annotate operation toggles the flag. -/
def annStateStep : Operation → Nat × Bool → Nat × Bool
  | Operation.retain l, (pos, onFlag) => (pos + l, onFlag)
  | Operation.replace remove _, (pos, onFlag) => (pos + remove.length, onFlag)
  | Operation.attrChange _ _ _, st => st
  | Operation.annotate _ bias _, (pos, _) => (pos, bias == "start")

/-- Reading cursor and annotating flag after a whole operation list. -/
def annState (ops : List Operation) (st : Nat × Bool) : Nat × Bool :=
  ops.foldl (fun s op => annStateStep op s) st

/-- What a retained position `j` may hold: while the annotating flag is
up, only eligible content (in particular never an element marker);
while it is down, no eligible content inside `[rstart, rend)` may be
passed over (otherwise a wider annotate span would have been
possible). -/
def annPosOK (doc : Document) (method : String) (ann : Annot) (rstart rend : Nat)
    (onFlag : Bool) (j : Nat) : Bool :=
  if onFlag then
    annEligible doc method ann j
  else
    !(decide (rstart ≤ j) && decide (j < rend) && annEligible doc method ann j)

/-- Walk an operation list tracking the cursor and annotating flag and
check `annPosOK` at every retained position. -/
def annRegionsOK (doc : Document) (method : String) (ann : Annot) (rstart rend : Nat) :
    List Operation → Nat × Bool → Bool
  | [], _ => true
  | op :: rest, (pos, onFlag) =>
    (match op with
     | Operation.retain l =>
       (List.range l).all (fun k => annPosOK doc method ann rstart rend onFlag (pos + k))
     | _ => true)
    && annRegionsOK doc method ann rstart rend rest (annStateStep op (pos, onFlag))

/-- No stop-annotating operation immediately followed by a
start-annotating operation: adjacent eligible runs are never split into
two annotate spans. -/
def noStopStartAdjacent : List Operation → Bool
  | op1 :: op2 :: rest =>
    (match op1, op2 with
     | Operation.annotate _ b1 _, Operation.annotate _ b2 _ => !(b1 == "stop" && b2 == "start")
     | _, _ => true)
    && noStopStartAdjacent (op2 :: rest)
  | _ => true

/-- Whether a pair of adjacent operations avoids the forbidden
stop-annotating-then-start-annotating pattern; the first component is
an optional preceding operation. -/
def annPairOK : Option Operation → Operation → Bool
  | some (Operation.annotate _ b1 _), Operation.annotate _ b2 _ =>
    !(b1 == "stop" && b2 == "start")
  | _, _ => true

/-- Whether appending a retain cannot coalesce: the operation list is
empty or ends in a replace.  The removal builder is always in this
state when it pushes a gap retain. -/
def lastIsReplaceOrEmpty (ops : List Operation) : Bool :=
  match ops.getLast? with
  | none => true
  | some (Operation.replace _ _) => true
  | some _ => false

/-- Middle part of the prescribed removal rendering: for each span, the
gap retain before it and the replace removing it (no trailing retain). -/
def removalMidOps (data : List Item) : List (Nat × Nat) → Nat → List Operation
  | [], _ => []
  | (s, e) :: rest, offset =>
    optRetain (s - offset) ++ Operation.replace (jsSlice data s e) [] ::
      removalMidOps data rest e

/-- Where the last span of a list ends (the flushed offset), or the
given offset when there is none. -/
def lastEndD : List (Nat × Nat) → Nat → Nat
  | [], offset => offset
  | (_, e) :: rest, _ => lastEndD rest e

/-- The flushed offset recorded in an optional previous-branch pair of
the conversion loop. -/
def prevEndOf : Option (Nat × VeRange) → Nat
  | some (_, r) => r.end_
  | none => 0

/-- The guarantees of a real document's `covered`-mode selection that
the sum invariant rests on (spec: entries are reported in document
order, fully inside the document): with a non-empty normalized range,
either the selection is empty (the builder throws), or, in the
mergeable case, the merge points are an ordered in-bounds pair, and in
the mixed case the per-entry spans form an ordered in-bounds chain. -/
def removalSelectionOK (doc : Document) (range : VeRange) : Bool :=
  let r := range.normalize
  if r.start = r.end_ then true
  else
    match doc.selectNodes r "covered" with
    | [] => true
    | first :: rest =>
      let last := rest.getLastD first
      if doc.canBeMergedWith first.node last.node then
        decide ((mergePoints first last).1 ≤ (mergePoints first last).2) &&
          decide ((mergePoints first last).2 ≤ doc.data.length)
      else
        spanChainB doc.data.length 0 ((first :: rest).map entrySpan)

/-! Concrete documents used to instantiate the claims. -/

/-- A document with the given linear data and inert oracle behaviour
(identity `fixupInsertion`, empty selections, no annotations, nothing
mergeable), used to instantiate claims on concrete inputs. -/
def mkDoc (data : List Item) : Document where
  data := data
  fixupInsertion := fun insertion _ => insertion
  selectNodes := fun _ _ => []
  offsetContainsAnnot := fun _ _ => false
  canBeMergedWith := fun _ _ => false
  isContent := fun _ => false
  getParent := fun _ => 0
  getOuterRange := fun _ => { start := 0, end_ := 0 }
  getLength := fun _ => 0

/-- The spec's insertion example: `[{type:'paragraph'}, 'a', {type:'/paragraph'}]`. -/
def paraDoc : Document :=
  mkDoc [Item.element "paragraph" none, Item.content 'a', Item.element "/paragraph" none]

/-- A document with empty linear data. -/
def emptyDoc : Document := mkDoc []

/-- A paragraph-like document whose opening element (at offset 0)
carries an attribute map. -/
def attrDoc : Document :=
  mkDoc [Item.element "listItem" (some [("style", "bullet")]), Item.content 'a',
    Item.element "/listItem" none]

/-- The spec's annotation example: a run of 5 plain characters. -/
def annDoc : Document :=
  mkDoc [Item.content 'a', Item.content 'b', Item.content 'c', Item.content 'd',
    Item.content 'e']

/-- A fully covered selection entry spanning `[1, 3)`. -/
def removalEntry1 : SelectionEntry :=
  { node := 1, range := none, nodeRange := { start := 1, end_ := 3 },
    nodeOuterRange := { start := 1, end_ := 3 } }

/-- A partially covered selection entry whose covered sub-range is
`[4, 5)`. -/
def removalEntry2 : SelectionEntry :=
  { node := 2, range := some { start := 4, end_ := 5 },
    nodeRange := { start := 4, end_ := 5 }, nodeOuterRange := { start := 3, end_ := 6 } }

/-- A 6-item document whose `covered`-mode selection reports
`removalEntry1` and `removalEntry2`; nothing is mergeable. -/
def removalSelDoc : Document :=
  { mkDoc [Item.content 'a', Item.content 'b', Item.content 'c', Item.content 'd',
      Item.content 'e', Item.content 'f'] with
    selectNodes := fun _ _ => [removalEntry1, removalEntry2] }

/-- A fully covered selection entry with outer range `[1, 5)` and inner
range `[2, 4)`. -/
def mergeFirstEntry : SelectionEntry :=
  { node := 1, range := none, nodeRange := { start := 2, end_ := 4 },
    nodeOuterRange := { start := 1, end_ := 5 } }

/-- A partially covered selection entry whose covered sub-range is
`[6, 7)`. -/
def mergeLastEntry : SelectionEntry :=
  { node := 2, range := some { start := 6, end_ := 7 },
    nodeRange := { start := 6, end_ := 8 }, nodeOuterRange := { start := 5, end_ := 9 } }

/-- A 10-item document whose `covered`-mode selection reports a fully
covered first node and a partially covered last node, with the two
nodes mergeable: the mixed-coverage merge case of `newFromRemoval`. -/
def mergeDocMixed : Document :=
  { mkDoc (List.replicate 10 (Item.content 'x')) with
    selectNodes := fun _ _ => [mergeFirstEntry, mergeLastEntry],
    canBeMergedWith := fun _ _ => true }

/-- A single-paragraph document whose `leaves`-mode selection reports
one content leaf whose parent branch wraps the whole document
(outer range `[0, 4)`, content length 2). -/
def convDoc : Document :=
  { mkDoc [Item.element "paragraph" none, Item.content 'a', Item.content 'b',
      Item.element "/paragraph" none] with
    selectNodes := fun _ _ =>
      [{ node := 5, range := none, nodeRange := { start := 1, end_ := 3 },
         nodeOuterRange := { start := 1, end_ := 3 } }],
    isContent := fun id => id == 5,
    getParent := fun _ => 7,
    getOuterRange := fun _ => { start := 0, end_ := 4 },
    getLength := fun _ => 2 }

/-! Helper lemmas about the accumulator methods. -/

theorem consumedLength_nil : consumedLength [] = 0 := rfl

theorem consumedLength_cons (op : Operation) (l : List Operation) :
    consumedLength (op :: l) = opConsumed op + consumedLength l := by
  simp [consumedLength]

theorem consumedLength_append (l1 l2 : List Operation) :
    consumedLength (l1 ++ l2) = consumedLength l1 + consumedLength l2 := by
  simp [consumedLength]

theorem pushRetain_natCast (tx : Transaction) (m : Nat) :
    tx.pushRetain (m : Int) =
      Except.ok (if m = 0 then tx else { tx with operations := appendRetain tx.operations m }) := by
  unfold Transaction.pushRetain
  rcases Nat.eq_zero_or_pos m with hm | hm
  · subst hm; simp
  · have h0 : ¬ ((m : Int) < 0) := by omega
    have h1 : ¬ ((m : Int) = 0) := by omega
    have h2 : ¬ (m = 0) := by omega
    simp [h0, h1, h2]

theorem pushRetain_sub (tx : Transaction) (a b : Nat) (h : b ≤ a) :
    tx.pushRetain ((a : Int) - (b : Int)) =
      Except.ok (if a - b = 0 then tx
                 else { tx with operations := appendRetain tx.operations (a - b) }) := by
  have hcast : (a : Int) - (b : Int) = ((a - b : Nat) : Int) := by omega
  rw [hcast]
  exact pushRetain_natCast tx (a - b)

theorem pushRetain_ok_inv (tx tx' : Transaction) (z : Int)
    (h : tx.pushRetain z = Except.ok tx') :
    0 ≤ z ∧ tx' = (if z = 0 then tx
                   else { tx with operations := appendRetain tx.operations z.toNat }) := by
  unfold Transaction.pushRetain at h
  split at h
  · exact absurd h (by simp)
  · rename_i hneg
    split at h
    · rename_i hz
      simp only [Except.ok.injEq] at h
      constructor
      · omega
      · simp [hz, ← h]
    · rename_i hz
      simp only [Except.ok.injEq] at h
      constructor
      · omega
      · simp [hz, ← h]

theorem pushRetain_sub_ok_le (tx tx' : Transaction) (a b : Nat)
    (h : tx.pushRetain ((a : Int) - (b : Int)) = Except.ok tx') : b ≤ a := by
  have := (pushRetain_ok_inv tx tx' _ h).1
  omega

theorem pushReplace_nil_nil (tx : Transaction) : tx.pushReplace [] [] = tx := by
  simp [Transaction.pushReplace]

theorem pushReplace_ne (tx : Transaction) (rm ins : List Item) (h : rm ≠ [] ∨ ins ≠ []) :
    tx.pushReplace rm ins =
      { operations := tx.operations ++ [Operation.replace rm ins],
        lengthDifference :=
          tx.lengthDifference + ((ins.length : Int) - (rm.length : Int)) } := by
  unfold Transaction.pushReplace
  split
  · rename_i hc
    simp only [decide_eq_true_eq, Bool.and_eq_true, List.length_eq_zero] at hc
    rcases h with h | h
    · exact absurd hc.1 h
    · exact absurd hc.2 h
  · rfl

theorem consumedLength_pushReplace (tx : Transaction) (rm ins : List Item) :
    consumedLength (tx.pushReplace rm ins).operations =
      consumedLength tx.operations + rm.length := by
  unfold Transaction.pushReplace
  split
  · rename_i hc
    simp only [decide_eq_true_eq, Bool.and_eq_true, List.length_eq_zero] at hc
    simp [hc.1]
  · simp [consumedLength_append, consumedLength_cons, consumedLength_nil, opConsumed]

/-- Structure of `appendRetain`: either the list ended in a retain that
absorbed the new length, or the new retain was appended. -/
theorem appendRetain_shape (ops : List Operation) (n : Nat) :
    (∃ init l, ops = init ++ [Operation.retain l] ∧
        appendRetain ops n = init ++ [Operation.retain (l + n)]) ∨
    ((∀ l, ops.getLast? ≠ some (Operation.retain l)) ∧
        appendRetain ops n = ops ++ [Operation.retain n]) := by
  induction ops with
  | nil =>
    right
    constructor
    · intro l; simp
    · simp [appendRetain]
  | cons op rest ih =>
    cases rest with
    | nil =>
      cases op with
      | retain l =>
        left
        exact ⟨[], l, by simp, by simp [appendRetain, retainMerge]⟩
      | replace rm ins =>
        right
        exact ⟨by intro l; simp, by simp [appendRetain, retainMerge]⟩
      | attrChange k f t =>
        right
        exact ⟨by intro l; simp, by simp [appendRetain, retainMerge]⟩
      | annotate m b a =>
        right
        exact ⟨by intro l; simp, by simp [appendRetain, retainMerge]⟩
    | cons op2 rest2 =>
      rcases ih with ⟨init, l, hops, heq⟩ | ⟨hlast, heq⟩
      · left
        refine ⟨op :: init, l, by simp [hops], ?_⟩
        simp [appendRetain, heq]
      · right
        constructor
        · intro l
          rw [List.getLast?_cons_cons]
          exact hlast l
        · simp [appendRetain, heq]

theorem appendRetain_concat_retain (init : List Operation) (l n : Nat) :
    appendRetain (init ++ [Operation.retain l]) n = init ++ [Operation.retain (l + n)] := by
  rcases appendRetain_shape (init ++ [Operation.retain l]) n with ⟨init', l', hops, heq⟩ |
    ⟨hlast, _⟩
  · have hinit : init' = init ∧ Operation.retain l' = Operation.retain l := by
      constructor
      · have := List.append_inj_left' hops rfl
        exact this.symm
      · have := List.append_inj_right' hops rfl
        simpa using this.symm
    rcases hinit with ⟨h1, h2⟩
    simp only [Operation.retain.injEq] at h2
    rw [heq, h1, h2]
  · exact absurd (by simp [List.getLast?_concat]) (hlast l)

theorem appendRetain_of_getLast_ne_retain (ops : List Operation) (n : Nat)
    (h : ∀ l, ops.getLast? ≠ some (Operation.retain l)) :
    appendRetain ops n = ops ++ [Operation.retain n] := by
  rcases appendRetain_shape ops n with ⟨init, l, hops, _⟩ | ⟨_, heq⟩
  · exact absurd (by simp [hops, List.getLast?_concat]) (h l)
  · exact heq

theorem appendRetain_of_lastIsReplaceOrEmpty (ops : List Operation) (n : Nat)
    (h : lastIsReplaceOrEmpty ops = true) :
    appendRetain ops n = ops ++ [Operation.retain n] := by
  apply appendRetain_of_getLast_ne_retain
  intro l hl
  unfold lastIsReplaceOrEmpty at h
  rw [hl] at h
  simp at h

theorem consumedLength_appendRetain (ops : List Operation) (n : Nat) :
    consumedLength (appendRetain ops n) = consumedLength ops + n := by
  rcases appendRetain_shape ops n with ⟨init, l, hops, heq⟩ | ⟨_, heq⟩
  · rw [heq, hops]
    simp [consumedLength_append, consumedLength_cons, consumedLength_nil, opConsumed]
    omega
  · rw [heq]
    simp [consumedLength_append, consumedLength_cons, consumedLength_nil, opConsumed]

theorem fresh_pushRetain_natCast (m : Nat) :
    Transaction.fresh.pushRetain (m : Int) =
      Except.ok { operations := optRetain m, lengthDifference := 0 } := by
  rw [pushRetain_natCast]
  by_cases h : m = 0
  · simp [h, optRetain, Transaction.fresh]
  · simp [h, optRetain, Transaction.fresh, appendRetain]

theorem pushRetain_append_op (tx : Transaction) (pre : List Operation) (op : Operation)
    (hops : tx.operations = pre ++ [op]) (hne : ∀ l, op ≠ Operation.retain l)
    (a b : Nat) (h : b ≤ a) :
    tx.pushRetain ((a : Int) - (b : Int)) =
      Except.ok { tx with operations := tx.operations ++ optRetain (a - b) } := by
  rw [pushRetain_sub _ _ _ h]
  by_cases hz : a - b = 0
  · simp [hz, optRetain]
  · rw [if_neg hz]
    have happ := appendRetain_of_getLast_ne_retain tx.operations (a - b)
      (by rw [hops]; intro l hl; rw [List.getLast?_concat] at hl
          exact hne l (by injection hl))
    simp [happ, optRetain, hz]

theorem pushRetain_append_replace (tx : Transaction) (pre : List Operation)
    (rm ins : List Item) (hops : tx.operations = pre ++ [Operation.replace rm ins])
    (a b : Nat) (h : b ≤ a) :
    tx.pushRetain ((a : Int) - (b : Int)) =
      Except.ok { tx with operations := tx.operations ++ optRetain (a - b) } :=
  pushRetain_append_op tx pre _ hops (by intro l hl; cases hl) a b h

theorem jsSlice_length (data : List Item) (s e : Nat) (hse : s ≤ e) (hel : e ≤ data.length) :
    (jsSlice data s e).length = e - s := by
  simp only [jsSlice, List.length_drop, List.length_take]
  omega

theorem jsSlice_ne_nil (data : List Item) (s e : Nat) (hse : s < e) (hel : e ≤ data.length) :
    jsSlice data s e ≠ [] := by
  have hlen : (jsSlice data s e).length = e - s := jsSlice_length data s e (by omega) hel
  intro hnil
  rw [hnil] at hlen
  simp at hlen
  omega

theorem consumedLength_optRetain (n : Nat) : consumedLength (optRetain n) = n := by
  by_cases h : n = 0 <;>
    simp [optRetain, h, consumedLength_cons, consumedLength_nil, opConsumed]

theorem appendRetain_all (p : Operation → Bool) (hp : ∀ m, p (Operation.retain m) = true)
    (ops : List Operation) (n : Nat) (h : ops.all p = true) :
    (appendRetain ops n).all p = true := by
  rcases appendRetain_shape ops n with ⟨init, l, hops, heq⟩ | ⟨_, heq⟩ <;> rw [heq]
  · subst hops
    have h1 : init.all p = true := by
      simp only [List.all_append, Bool.and_eq_true] at h
      exact h.1
    simp [List.all_append, h1, hp]
  · simp [List.all_append, h, hp]

theorem pushRetain_ok_props (tx tx' : Transaction) (z : Int)
    (h : tx.pushRetain z = Except.ok tx') :
    0 ≤ z ∧
    consumedLength tx'.operations = consumedLength tx.operations + z.toNat ∧
    tx'.lengthDifference = tx.lengthDifference ∧
    (tx.operations.all (fun op => !isReplaceOp op) = true →
      tx'.operations.all (fun op => !isReplaceOp op) = true) := by
  obtain ⟨hz, htx⟩ := pushRetain_ok_inv tx tx' z h
  by_cases h0 : z = 0
  · subst h0
    simp only [if_pos rfl] at htx
    subst htx
    simp
  · rw [if_neg h0] at htx
    subst htx
    refine ⟨hz, ?_, rfl, ?_⟩
    · simp [consumedLength_appendRetain]
    · intro hall
      exact appendRetain_all _ (by intro m; rfl) _ _ hall

theorem pushRetain_sub_ok (tx : Transaction) (a b : Nat) (h : b ≤ a) :
    ∃ tx', tx.pushRetain ((a : Int) - (b : Int)) = Except.ok tx' ∧
      consumedLength tx'.operations = consumedLength tx.operations + (a - b) ∧
      tx'.lengthDifference = tx.lengthDifference := by
  rw [pushRetain_sub _ _ _ h]
  by_cases hz : a - b = 0
  · rw [if_pos hz]
    exact ⟨tx, rfl, by omega, rfl⟩
  · rw [if_neg hz]
    refine ⟨_, rfl, ?_, rfl⟩
    simp [consumedLength_appendRetain]

theorem pushReplace_props (tx : Transaction) (rm ins : List Item) :
    consumedLength (tx.pushReplace rm ins).operations =
      consumedLength tx.operations + rm.length ∧
    (tx.pushReplace rm ins).lengthDifference =
      tx.lengthDifference + ((ins.length : Int) - (rm.length : Int)) := by
  refine ⟨consumedLength_pushReplace tx rm ins, ?_⟩
  unfold Transaction.pushReplace
  split
  · rename_i hc
    simp only [decide_eq_true_eq, Bool.and_eq_true, List.length_eq_zero] at hc
    simp [hc.1, hc.2]
  · rfl

theorem pushRetain_lastReplaceOrEmpty (tx : Transaction)
    (h : lastIsReplaceOrEmpty tx.operations = true) (a b : Nat) (hab : b ≤ a) :
    tx.pushRetain ((a : Int) - (b : Int)) =
      Except.ok { tx with operations := tx.operations ++ optRetain (a - b) } := by
  rw [pushRetain_sub _ _ _ hab]
  by_cases hz : a - b = 0
  · simp [hz, optRetain]
  · rw [if_neg hz, appendRetain_of_lastIsReplaceOrEmpty _ _ h]
    simp [optRetain, hz]

theorem lastIsReplaceOrEmpty_concat_replace (ops : List Operation) (rm ins : List Item) :
    lastIsReplaceOrEmpty (ops ++ [Operation.replace rm ins]) = true := by
  simp [lastIsReplaceOrEmpty, List.getLast?_concat]

theorem spanChainB_le (len : Nat) :
    ∀ (sp : List (Nat × Nat)) (p : Nat), spanChainB len p sp = true → p ≤ len := by
  intro sp
  induction sp with
  | nil =>
    intro p h
    simpa [spanChainB] using h
  | cons se rest ih =>
    rcases se with ⟨s, e⟩
    intro p h
    simp only [spanChainB, Bool.and_eq_true, decide_eq_true_eq] at h
    have := ih e h.2
    omega

theorem strictSpanChainB_le (len : Nat) :
    ∀ (sp : List (Nat × Nat)) (p : Nat), strictSpanChainB len p sp = true → p ≤ len := by
  intro sp
  induction sp with
  | nil =>
    intro p h
    simpa [strictSpanChainB] using h
  | cons se rest ih =>
    rcases se with ⟨s, e⟩
    intro p h
    simp only [strictSpanChainB, Bool.and_eq_true, decide_eq_true_eq] at h
    have := ih e h.2
    omega

theorem countP_isReplaceOp_optRetain (n : Nat) :
    (optRetain n).countP (fun op => isReplaceOp op) = 0 := by
  by_cases h : n = 0 <;> simp [optRetain, h, isReplaceOp]

theorem removalOpsFrom_append_last (data : List Item) (len : Nat) :
    ∀ (init : List (Nat × Nat)) (a b offset : Nat),
      removalOpsFrom data len (init ++ [(a, b)]) offset =
        removalMidOps data init offset ++
          (optRetain (a - lastEndD init offset) ++
            Operation.replace (jsSlice data a b) [] :: optRetain (len - b)) := by
  intro init
  induction init with
  | nil =>
    intro a b offset
    simp [removalOpsFrom, removalMidOps, lastEndD]
  | cons se rest ih =>
    rcases se with ⟨s, e⟩
    intro a b offset
    simp [removalOpsFrom, removalMidOps, lastEndD, ih, List.append_assoc]

/-- Invariant of the removal loop used by the sum invariant: under an
ordered in-bounds span chain the loop succeeds, and the items it
consumes equal the distance its flushed offset advances. -/
theorem removalLoop_consumed (data : List Item) :
    ∀ (sp : List (Nat × Nat)) (tx : Transaction) (offset rs re : Nat),
      offset ≤ rs → rs ≤ re → spanChainB data.length re sp = true →
      ∃ tx1 off1 rs1 re1,
        removalLoop data sp tx offset (some (rs, re)) =
          Except.ok (tx1, off1, some (rs1, re1)) ∧
        consumedLength tx1.operations + offset = consumedLength tx.operations + off1 ∧
        offset ≤ off1 ∧ off1 ≤ rs1 ∧ rs1 ≤ re1 ∧ re1 ≤ data.length := by
  intro sp
  induction sp with
  | nil =>
    intro tx offset rs re h1 h2 h3
    have hre : re ≤ data.length := by simpa [spanChainB] using h3
    exact ⟨tx, offset, rs, re, by simp [removalLoop], by omega, by omega, h1, h2, hre⟩
  | cons se rest ih =>
    rcases se with ⟨s, e⟩
    intro tx offset rs re h1 h2 h3
    simp only [spanChainB, Bool.and_eq_true, decide_eq_true_eq] at h3
    obtain ⟨⟨hres, hse⟩, hch⟩ := h3
    by_cases heq : re = s
    · subst heq
      simp only [removalLoop, if_pos rfl]
      exact ih tx offset rs e h1 (by omega) hch
    · simp only [removalLoop, if_neg heq]
      obtain ⟨txr, hr, hrc, -⟩ := pushRetain_sub_ok tx rs offset h1
      rw [hr]
      have hrelen : re ≤ data.length := by
        have := spanChainB_le data.length rest e hch
        omega
      obtain ⟨tx1, off1, rs1, re1, hloop, hcons, hle1, hle2, hle3, hle4⟩ :=
        ih (txr.pushReplace (jsSlice data rs re) []) re s e hres hse hch
      refine ⟨tx1, off1, rs1, re1, hloop, ?_, by omega, hle2, hle3, hle4⟩
      have hpr := (pushReplace_props txr (jsSlice data rs re) []).1
      rw [jsSlice_length data rs re h2 hrelen] at hpr
      omega

/-- Characterization of the removal loop used by the mixed-removal
claim: under a strict ordered in-bounds span chain, the loop emits
exactly the gap retains and span replaces of all but the last coalesced
span, and leaves that last span pending. -/
theorem removalLoop_ops (data : List Item) :
    ∀ (sp : List (Nat × Nat)) (tx : Transaction) (offset rs re : Nat),
      lastIsReplaceOrEmpty tx.operations = true →
      offset ≤ rs → rs < re → strictSpanChainB data.length re sp = true →
      ∃ tx1 off1 rs1 re1 init,
        removalLoop data sp tx offset (some (rs, re)) =
          Except.ok (tx1, off1, some (rs1, re1)) ∧
        coalesceFrom (rs, re) sp = init ++ [(rs1, re1)] ∧
        tx1.operations = tx.operations ++ removalMidOps data init offset ∧
        off1 = lastEndD init offset ∧
        lastIsReplaceOrEmpty tx1.operations = true ∧
        off1 ≤ rs1 ∧ rs1 < re1 ∧ re1 ≤ data.length := by
  intro sp
  induction sp with
  | nil =>
    intro tx offset rs re hlast h1 h2 h3
    have hre : re ≤ data.length := by simpa [strictSpanChainB] using h3
    exact ⟨tx, offset, rs, re, [], by simp [removalLoop],
      by simp [coalesceFrom], by simp [removalMidOps], by simp [lastEndD],
      hlast, h1, h2, hre⟩
  | cons se rest ih =>
    rcases se with ⟨s, e⟩
    intro tx offset rs re hlast h1 h2 h3
    simp only [strictSpanChainB, Bool.and_eq_true, decide_eq_true_eq] at h3
    obtain ⟨⟨hres, hse⟩, hch⟩ := h3
    by_cases heq : re = s
    · subst heq
      simp only [removalLoop, if_pos rfl]
      obtain ⟨tx1, off1, rs1, re1, init, hloop, hco, hops, hoff, hl, hle1, hle2, hle3⟩ :=
        ih tx offset rs e hlast h1 (by omega) hch
      exact ⟨tx1, off1, rs1, re1, init, hloop, by simp [coalesceFrom, hco], hops, hoff,
        hl, hle1, hle2, hle3⟩
    · have hpr := pushRetain_lastReplaceOrEmpty tx hlast rs offset h1
      simp only [removalLoop, if_neg heq, hpr]
      have hrelen : re ≤ data.length := by
        have := strictSpanChainB_le data.length rest e hch
        omega
      have hsne : jsSlice data rs re ≠ [] := jsSlice_ne_nil data rs re h2 hrelen
      have hrops : (({ tx with operations := tx.operations ++ optRetain (rs - offset) } :
          Transaction).pushReplace (jsSlice data rs re) []).operations =
          (tx.operations ++ optRetain (rs - offset)) ++
            [Operation.replace (jsSlice data rs re) []] := by
        rw [pushReplace_ne _ _ _ (Or.inl hsne)]
      obtain ⟨tx1, off1, rs1, re1, init, hloop, hco, hops, hoff, hl, hle1, hle2, hle3⟩ :=
        ih (({ tx with operations := tx.operations ++ optRetain (rs - offset) } :
            Transaction).pushReplace (jsSlice data rs re) []) re s e
          (by rw [hrops]; exact lastIsReplaceOrEmpty_concat_replace _ _ _) hres hse hch
      refine ⟨tx1, off1, rs1, re1, (rs, re) :: init, hloop, ?_, ?_, ?_, hl, hle1, hle2, hle3⟩
      · simp [coalesceFrom, if_neg heq, hco]
      · rw [hops, hrops]
        simp [removalMidOps, List.append_assoc]
      · simp [lastEndD, hoff]

theorem consumedLength_concat (ops : List Operation) (op : Operation) :
    consumedLength (ops ++ [op]) = consumedLength ops + opConsumed op := by
  simp [consumedLength]

theorem normalize_start_le (r : VeRange) : r.normalize.start ≤ r.normalize.end_ := by
  unfold VeRange.normalize
  split
  · rename_i h; exact h
  · rename_i h; simp; omega

theorem pushRetainNat_props (tx : Transaction) (m : Nat) :
    ∃ tx1, tx.pushRetain (m : Int) = Except.ok tx1 ∧
      consumedLength tx1.operations = consumedLength tx.operations + m ∧
      tx1.lengthDifference = tx.lengthDifference ∧
      (tx.operations.all (fun op => !isReplaceOp op) = true →
        tx1.operations.all (fun op => !isReplaceOp op) = true) := by
  rw [pushRetain_natCast]
  by_cases h : m = 0
  · rw [if_pos h]
    exact ⟨tx, rfl, by omega, rfl, fun hh => hh⟩
  · rw [if_neg h]
    refine ⟨_, rfl, ?_, rfl, ?_⟩
    · simp [consumedLength_appendRetain]
    · intro hall
      exact appendRetain_all _ (fun m => rfl) _ _ hall

theorem pushStopAnnotating_props (tx : Transaction) (method : String) (ann : Annot) :
    consumedLength (tx.pushStopAnnotating method ann).operations =
      consumedLength tx.operations ∧
    (tx.pushStopAnnotating method ann).lengthDifference = tx.lengthDifference ∧
    (tx.operations.all (fun op => !isReplaceOp op) = true →
      (tx.pushStopAnnotating method ann).operations.all (fun op => !isReplaceOp op) = true) := by
  refine ⟨?_, rfl, ?_⟩
  · simp [Transaction.pushStopAnnotating, consumedLength_concat, opConsumed]
  · intro hall
    simp only [Transaction.pushStopAnnotating, List.all_append, hall, Bool.true_and]
    rfl

theorem pushStartAnnotating_props (tx : Transaction) (method : String) (ann : Annot) :
    consumedLength (tx.pushStartAnnotating method ann).operations =
      consumedLength tx.operations ∧
    (tx.pushStartAnnotating method ann).lengthDifference = tx.lengthDifference ∧
    (tx.operations.all (fun op => !isReplaceOp op) = true →
      (tx.pushStartAnnotating method ann).operations.all (fun op => !isReplaceOp op) =
        true) := by
  refine ⟨?_, rfl, ?_⟩
  · simp [Transaction.pushStartAnnotating, consumedLength_concat, opConsumed]
  · intro hall
    simp only [Transaction.pushStartAnnotating, List.all_append, hall, Bool.true_and]
    rfl

/-- Invariant of the annotation loop: the items consumed so far plus
the pending span grow by exactly one per iteration, the length
difference never changes, and no replace operation is ever pushed. -/
theorem annLoop_props (doc : Document) (method : String) (ann : Annot) :
    ∀ (n i span : Nat) (onFlag : Bool) (tx : Transaction) (span' : Nat) (on' : Bool)
      (tx' : Transaction),
      annLoop doc method ann n i span onFlag tx = Except.ok (span', on', tx') →
      consumedLength tx'.operations + span' = consumedLength tx.operations + span + n ∧
      tx'.lengthDifference = tx.lengthDifference ∧
      (tx.operations.all (fun op => !isReplaceOp op) = true →
        tx'.operations.all (fun op => !isReplaceOp op) = true) := by
  intro n
  induction n with
  | zero =>
    intro i span onFlag tx span' on' tx' h
    simp only [annLoop, Except.ok.injEq, Prod.mk.injEq] at h
    obtain ⟨h1, -, h3⟩ := h
    subst h1
    subst h3
    exact ⟨by omega, rfl, fun hh => hh⟩
  | succ n ih =>
    intro i span onFlag tx span' on' tx' h
    simp only [annLoop] at h
    cases hdata : doc.data[i]? with
    | none =>
      simp only [hdata] at h
      simp at h
    | some item =>
      cases item with
      | element t attrs =>
        simp only [hdata] at h
        cases onFlag with
        | true =>
          rw [if_pos rfl] at h
          obtain ⟨txR, hpr, hprc, hprd, hpra⟩ := pushRetainNat_props tx span
          simp only [hpr] at h
          obtain ⟨ihc, ihd, iha⟩ := ih _ _ _ _ _ _ _ h
          obtain ⟨hsc, hsd, hsa⟩ := pushStopAnnotating_props txR method ann
          refine ⟨by omega, by rw [ihd, hsd, hprd], fun hall => iha (hsa (hpra hall))⟩
        | false =>
          rw [if_neg (by decide)] at h
          obtain ⟨ihc, ihd, iha⟩ := ih _ _ _ _ _ _ _ h
          exact ⟨by omega, ihd, iha⟩
      | content c =>
        simp only [hdata] at h
        by_cases hcond : ((doc.offsetContainsAnnot i ann && method == "set") ||
            (!doc.offsetContainsAnnot i ann && method == "clear")) = true
        · rw [if_pos hcond] at h
          cases onFlag with
          | true =>
            rw [if_pos rfl] at h
            obtain ⟨txR, hpr, hprc, hprd, hpra⟩ := pushRetainNat_props tx span
            simp only [hpr] at h
            obtain ⟨ihc, ihd, iha⟩ := ih _ _ _ _ _ _ _ h
            obtain ⟨hsc, hsd, hsa⟩ := pushStopAnnotating_props txR method ann
            refine ⟨by omega, by rw [ihd, hsd, hprd], fun hall => iha (hsa (hpra hall))⟩
          | false =>
            rw [if_neg (by decide)] at h
            obtain ⟨ihc, ihd, iha⟩ := ih _ _ _ _ _ _ _ h
            exact ⟨by omega, ihd, iha⟩
        · rw [if_neg hcond] at h
          cases onFlag with
          | false =>
            simp only [Bool.not_false] at h
            rw [if_pos trivial] at h
            obtain ⟨txR, hpr, hprc, hprd, hpra⟩ := pushRetainNat_props tx span
            simp only [hpr] at h
            obtain ⟨ihc, ihd, iha⟩ := ih _ _ _ _ _ _ _ h
            obtain ⟨hsc, hsd, hsa⟩ := pushStartAnnotating_props txR method ann
            refine ⟨by omega, by rw [ihd, hsd, hprd], fun hall => iha (hsa (hpra hall))⟩
          | true =>
            rw [if_neg (by decide)] at h
            obtain ⟨ihc, ihd, iha⟩ := ih _ _ _ _ _ _ _ h
            exact ⟨by omega, ihd, iha⟩

/-- Invariant of the conversion loop: provided every branch's outer
range spans exactly its opening marker, content and closing marker, the
items consumed always equal the end of the previously converted
branch's outer range. -/
theorem conversionLoop_consumed (doc : Document) (data : List Item) (opening closing : Item)
    (hBR : ∀ b, (doc.getOuterRange b).end_ = (doc.getOuterRange b).start + doc.getLength b + 2) :
    ∀ (sel : List SelectionEntry) (tx : Transaction) (prev : Option (Nat × VeRange))
      (tx1 : Transaction) (prev1 : Option (Nat × VeRange)),
      conversionLoop doc data opening closing sel tx prev = Except.ok (tx1, prev1) →
      (∀ b r, prev = some (b, r) → r = doc.getOuterRange b) →
      consumedLength tx.operations = prevEndOf prev →
      consumedLength tx1.operations = prevEndOf prev1 ∧
      (∀ b r, prev1 = some (b, r) → r = doc.getOuterRange b) := by
  intro sel
  induction sel with
  | nil =>
    intro tx prev tx1 prev1 h hpr hc
    simp only [conversionLoop, Except.ok.injEq, Prod.mk.injEq] at h
    obtain ⟨h1, h2⟩ := h
    subst h1
    subst h2
    exact ⟨hc, hpr⟩
  | cons selected rest ih =>
    intro tx prev tx1 prev1 h hpr hc
    simp only [conversionLoop] at h
    by_cases hic : doc.isContent selected.node = true
    · rw [if_pos hic] at h
      by_cases hpb : prev.map Prod.fst = some (doc.getParent selected.node)
      · rw [if_pos hpb] at h
        exact ih _ _ _ _ h hpr hc
      · rw [if_neg hpb] at h
        rcases prev with - | ⟨b0, r0⟩ <;> simp only [] at h
        · cases hstep : tx.pushRetain
              ((((doc.getOuterRange (doc.getParent selected.node)).start : Int)) -
                ((0 : Nat) : Int)) with
          | error e =>
            rw [hstep] at h
            simp at h
          | ok txr =>
            rw [hstep] at h
            obtain ⟨hge, hcc, -, -⟩ := pushRetain_ok_props _ _ _ hstep
            obtain ⟨txr2, hpr2, hprc2, -, -⟩ := pushRetainNat_props
              (txr.pushReplace [data.getD (doc.getOuterRange
                (doc.getParent selected.node)).start default] [opening])
              (doc.getLength (doc.getParent selected.node))
            simp only [hpr2] at h
            refine ih _ _ _ _ h ?_ ?_
            · intro b r hbr
              simp only [Option.some.injEq, Prod.mk.injEq] at hbr
              rw [← hbr.1, ← hbr.2]
            · have h1 := (pushReplace_props txr [data.getD (doc.getOuterRange
                (doc.getParent selected.node)).start default] [opening]).1
              have h2 := (pushReplace_props txr2 [data.getD ((doc.getOuterRange
                (doc.getParent selected.node)).end_ - 1) default] [closing]).1
              have hbr := hBR (doc.getParent selected.node)
              simp only [List.length_singleton] at h1 h2
              simp only [prevEndOf] at hc ⊢
              omega
        · cases hstep : tx.pushRetain
              ((((doc.getOuterRange (doc.getParent selected.node)).start : Int)) -
                ((r0.end_ : Nat) : Int)) with
          | error e =>
            rw [hstep] at h
            simp at h
          | ok txr =>
            rw [hstep] at h
            obtain ⟨hge, hcc, -, -⟩ := pushRetain_ok_props _ _ _ hstep
            obtain ⟨txr2, hpr2, hprc2, -, -⟩ := pushRetainNat_props
              (txr.pushReplace [data.getD (doc.getOuterRange
                (doc.getParent selected.node)).start default] [opening])
              (doc.getLength (doc.getParent selected.node))
            simp only [hpr2] at h
            refine ih _ _ _ _ h ?_ ?_
            · intro b r hbr
              simp only [Option.some.injEq, Prod.mk.injEq] at hbr
              rw [← hbr.1, ← hbr.2]
            · have h1 := (pushReplace_props txr [data.getD (doc.getOuterRange
                (doc.getParent selected.node)).start default] [opening]).1
              have h2 := (pushReplace_props txr2 [data.getD ((doc.getOuterRange
                (doc.getParent selected.node)).end_ - 1) default] [closing]).1
              have hbr := hBR (doc.getParent selected.node)
              simp only [List.length_singleton] at h1 h2
              simp only [prevEndOf] at hc ⊢
              omega
    · rw [if_neg hic] at h
      exact ih _ _ _ _ h hpr hc

theorem newFromInsertion_consumed (doc : Document) (offset : Nat) (insertion : List Item)
    (tx : Transaction) (h : newFromInsertion doc offset insertion = Except.ok tx) :
    consumedLength tx.operations = doc.data.length := by
  simp only [newFromInsertion, fresh_pushRetain_natCast] at h
  obtain ⟨hge, hcc, -, -⟩ := pushRetain_ok_props _ _ _ h
  have hrep := (pushReplace_props { operations := optRetain offset, lengthDifference := 0 }
    [] (doc.fixupInsertion insertion offset)).1
  have hrep' : consumedLength (({ operations := optRetain offset, lengthDifference := 0 } :
      Transaction).pushReplace [] (doc.fixupInsertion insertion offset)).operations =
      offset := by
    rw [hrep]
    simp [consumedLength_optRetain]
  rw [hrep'] at hcc
  omega

theorem newFromAttributeChange_props (doc : Document) (offset : Nat) (key : String)
    (value : Option String) (tx : Transaction)
    (h : newFromAttributeChange doc offset key value = Except.ok tx) :
    consumedLength tx.operations = doc.data.length ∧
    tx.lengthDifference = 0 ∧
    tx.operations.all (fun op => !isReplaceOp op) = true := by
  simp only [newFromAttributeChange] at h
  cases hdata : doc.data[offset]? with
  | none =>
    simp only [hdata] at h
    simp at h
  | some item =>
    cases item with
    | content c =>
      simp only [hdata] at h
      simp at h
    | element t attrs =>
      simp only [hdata] at h
      by_cases hsl : t.data.head? = some '/'
      · rw [if_pos hsl] at h
        simp at h
      · rw [if_neg hsl] at h
        simp only [fresh_pushRetain_natCast] at h
        obtain ⟨hge, hcc, hdd, haa⟩ := pushRetain_ok_props _ _ _ h
        have hops : (({ operations := optRetain offset, lengthDifference := 0 } :
            Transaction).pushReplaceElementAttribute key
              (attrs.bind fun m => m.lookup key) value).operations =
            optRetain offset ++ [Operation.attrChange key
              (attrs.bind fun m => m.lookup key) value] := rfl
        refine ⟨?_, ?_, ?_⟩
        · rw [hops] at hcc
          rw [consumedLength_concat, consumedLength_optRetain] at hcc
          simp only [opConsumed] at hcc
          omega
        · rw [hdd]; rfl
        · apply haa
          rw [hops, List.all_append]
          have h1 : (optRetain offset).all (fun op => !isReplaceOp op) = true := by
            by_cases h0 : offset = 0 <;> simp [optRetain, h0, isReplaceOp]
          rw [h1]
          rfl

theorem newFromAnnotation_props (doc : Document) (range : VeRange) (method : String)
    (ann : Annot) (tx : Transaction)
    (h : newFromAnnotation doc range method ann = Except.ok tx) :
    consumedLength tx.operations = doc.data.length ∧
    tx.lengthDifference = 0 ∧
    tx.operations.all (fun op => !isReplaceOp op) = true := by
  simp only [ newFromAnnotation] at h
  cases hloop : annLoop doc method ann (range.normalize.end_ - range.normalize.start)
      range.normalize.start range.normalize.start false Transaction.fresh with
  | error e =>
    rw [hloop] at h
    simp at h
  | ok res =>
    rcases res with ⟨span', on', tx'⟩
    simp only [hloop] at h
    obtain ⟨ihc, ihd, iha⟩ := annLoop_props doc method ann _ _ _ _ _ _ _ _ hloop
    obtain ⟨tx1, hpr, hprc, hprd, hpra⟩ := pushRetainNat_props tx' span'
    simp only [hpr] at h
    have hf : consumedLength Transaction.fresh.operations = 0 := rfl
    have hnorm := normalize_start_le range
    by_cases hon : on' = true
    · rw [if_pos hon] at h
      obtain ⟨hge, hcc, hdd, haa⟩ := pushRetain_ok_props _ _ _ h
      obtain ⟨hsc, hsd, hsa⟩ := pushStopAnnotating_props tx1 method ann
      refine ⟨by omega, ?_, ?_⟩
      · rw [hdd, hsd, hprd, ihd]; rfl
      · exact haa (hsa (hpra (iha rfl)))
    · rw [if_neg hon] at h
      obtain ⟨hge, hcc, hdd, haa⟩ := pushRetain_ok_props _ _ _ h
      refine ⟨by omega, ?_, ?_⟩
      · rw [hdd, hprd, ihd]; rfl
      · exact haa (hpra (iha rfl))

theorem newFromRemoval_consumed (doc : Document) (range : VeRange) (tx : Transaction)
    (hWF : removalSelectionOK doc range = true)
    (h : newFromRemoval doc range = Except.ok tx) :
    consumedLength tx.operations = doc.data.length := by
  simp only [newFromRemoval] at h
  simp only [removalSelectionOK] at hWF
  by_cases hempty : range.normalize.start = range.normalize.end_
  · rw [if_pos hempty] at h
    rw [fresh_pushRetain_natCast] at h
    simp only [Except.ok.injEq] at h
    rw [← h]
    simp [consumedLength_optRetain]
  · rw [if_neg hempty] at h
    rw [if_neg hempty] at hWF
    cases hsel : doc.selectNodes range.normalize "covered" with
    | nil =>
      simp only [hsel] at h
      simp at h
    | cons first rest =>
      simp only [hsel] at h hWF
      by_cases hm : doc.canBeMergedWith first.node (rest.getLastD first).node = true
      · rw [if_pos hm] at h
        rw [if_pos hm] at hWF
        simp only [Bool.and_eq_true, decide_eq_true_eq] at hWF
        obtain ⟨h12, h2l⟩ := hWF
        simp only [fresh_pushRetain_natCast] at h
        obtain ⟨hge, hcc, -, -⟩ := pushRetain_ok_props _ _ _ h
        have hrep := (pushReplace_props
          { operations := optRetain (mergePoints first (rest.getLastD first)).1,
            lengthDifference := 0 }
          (jsSlice doc.data (mergePoints first (rest.getLastD first)).1
            (mergePoints first (rest.getLastD first)).2) []).1
        rw [jsSlice_length _ _ _ h12 h2l] at hrep
        simp only [consumedLength_optRetain] at hrep
        rw [hrep] at hcc
        omega
      · rw [if_neg hm] at h
        rw [if_neg hm] at hWF
        rcases hsp : entrySpan first with ⟨s0, e0⟩
        have hmap : (first :: rest).map entrySpan = (s0, e0) :: rest.map entrySpan := by
          simp [hsp]
        rw [hmap] at h hWF
        simp only [spanChainB, Bool.and_eq_true, decide_eq_true_eq] at hWF
        obtain ⟨⟨h0s, hs0e⟩, hch⟩ := hWF
        obtain ⟨tx1, off1, rs1, re1, hloop, hcons, hle1, hle2, hle3, hle4⟩ :=
          removalLoop_consumed doc.data (rest.map entrySpan) Transaction.fresh 0 s0 e0
            h0s hs0e hch
        simp only [removalLoop, hloop] at h
        obtain ⟨txr, hstep, hrc, -⟩ := pushRetain_sub_ok tx1 rs1 off1 hle2
        simp only [hstep] at h
        obtain ⟨hge, hcc, -, -⟩ := pushRetain_ok_props _ _ _ h
        have hrep := (pushReplace_props txr (jsSlice doc.data rs1 re1) []).1
        rw [jsSlice_length _ _ _ hle3 hle4] at hrep
        have hf : consumedLength Transaction.fresh.operations = 0 := rfl
        rw [hrep] at hcc
        omega

theorem newFromContentBranchConversion_consumed (doc : Document) (range : VeRange)
    (type : String) (attr : Option (List (String × String))) (tx : Transaction)
    (hBR : ∀ b, (doc.getOuterRange b).end_ = (doc.getOuterRange b).start + doc.getLength b + 2)
    (h : newFromContentBranchConversion doc range type attr = Except.ok tx) :
    consumedLength tx.operations = doc.data.length := by
  simp only [newFromContentBranchConversion] at h
  cases hloop : conversionLoop doc doc.data (Item.element type attr)
      (Item.element ("/" ++ type) none) (doc.selectNodes range "leaves")
      Transaction.fresh none with
  | error e =>
    rw [hloop] at h
    simp at h
  | ok res =>
    rcases res with ⟨tx1, prev1⟩
    simp only [hloop] at h
    obtain ⟨hc1, -⟩ := conversionLoop_consumed doc doc.data _ _ hBR _ _ _ _ _ hloop
      (by intro b r hbr; cases hbr) rfl
    rcases prev1 with - | ⟨b1, r1⟩ <;> simp only [] at h
    · obtain ⟨hge, hcc, -, -⟩ := pushRetain_ok_props _ _ _ h
      simp only [prevEndOf] at hc1
      omega
    · obtain ⟨hge, hcc, -, -⟩ := pushRetain_ok_props _ _ _ h
      simp only [prevEndOf] at hc1
      omega

theorem annState_append (l1 l2 : List Operation) (st : Nat × Bool) :
    annState (l1 ++ l2) st = annState l2 (annState l1 st) := by
  simp [annState, List.foldl_append]

theorem annState_concat (ops : List Operation) (op : Operation) (st : Nat × Bool) :
    annState (ops ++ [op]) st = annStateStep op (annState ops st) := by
  simp [annState, List.foldl_append]

theorem annRegionsOK_append (doc : Document) (method : String) (ann : Annot)
    (rstart rend : Nat) (l1 l2 : List Operation) (st : Nat × Bool) :
    annRegionsOK doc method ann rstart rend (l1 ++ l2) st =
      (annRegionsOK doc method ann rstart rend l1 st &&
        annRegionsOK doc method ann rstart rend l2 (annState l1 st)) := by
  induction l1 generalizing st with
  | nil => simp [annRegionsOK, annState]
  | cons op rest ih =>
    rcases st with ⟨pos, onFlag⟩
    have hst : annState (op :: rest) (pos, onFlag) =
        annState rest (annStateStep op (pos, onFlag)) := by
      simp [annState]
    simp only [List.cons_append, annRegionsOK, List.append_eq, hst, ih, Bool.and_assoc]

theorem annRegionsOK_concat_annotate (doc : Document) (method : String) (ann : Annot)
    (rstart rend : Nat) (ops : List Operation) (m b : String) (a : Annot) (st : Nat × Bool)
    (h : annRegionsOK doc method ann rstart rend ops st = true) :
    annRegionsOK doc method ann rstart rend (ops ++ [Operation.annotate m b a]) st = true := by
  rw [annRegionsOK_append, h]
  rcases annState ops st with ⟨pos, onFlag⟩
  simp [annRegionsOK]

theorem noStopStartAdjacent_concat (ops : List Operation) (op : Operation) :
    noStopStartAdjacent (ops ++ [op]) =
      (noStopStartAdjacent ops && annPairOK ops.getLast? op) := by
  induction ops with
  | nil => simp [noStopStartAdjacent, annPairOK]
  | cons op1 rest ih =>
    cases rest with
    | nil =>
      cases op1 <;> cases op <;>
        simp [noStopStartAdjacent, annPairOK, List.getLast?_singleton]
    | cons op2 rest2 =>
      simp only [List.cons_append, List.append_eq] at ih
      simp only [List.cons_append, noStopStartAdjacent, List.getLast?_cons_cons,
        List.append_eq, ih, Bool.and_assoc]

theorem annPairOK_retain (o : Option Operation) (m : Nat) :
    annPairOK o (Operation.retain m) = true := by
  rcases o with - | op
  · rfl
  · cases op <;> rfl

theorem annPairOK_stop (o : Option Operation) (m : String) (a : Annot) :
    annPairOK o (Operation.annotate m "stop" a) = true := by
  rcases o with - | op
  · rfl
  · cases op <;> simp [annPairOK]

theorem appendRetain_getLast_retain (ops : List Operation) (n : Nat) :
    ∃ m, (appendRetain ops n).getLast? = some (Operation.retain m) := by
  rcases appendRetain_shape ops n with ⟨init, l, -, heq⟩ | ⟨-, heq⟩ <;> rw [heq]
  · exact ⟨l + n, List.getLast?_concat _⟩
  · exact ⟨n, List.getLast?_concat _⟩

theorem noStopStartAdjacent_appendRetain (ops : List Operation) (n : Nat)
    (h : noStopStartAdjacent ops = true) :
    noStopStartAdjacent (appendRetain ops n) = true := by
  rcases appendRetain_shape ops n with ⟨init, l, hops, heq⟩ | ⟨-, heq⟩ <;> rw [heq]
  · subst hops
    rw [noStopStartAdjacent_concat] at h
    simp only [Bool.and_eq_true] at h
    rw [noStopStartAdjacent_concat, h.1, annPairOK_retain]
    rfl
  · rw [noStopStartAdjacent_concat, h, annPairOK_retain]
    rfl

theorem annRegionsOK_appendRetain (doc : Document) (method : String) (ann : Annot)
    (rstart rend : Nat) (ops : List Operation) (n pos : Nat) (onFlag : Bool)
    (hst : annState ops (0, false) = (pos, onFlag))
    (hok : annRegionsOK doc method ann rstart rend ops ((0 : Nat), false) = true)
    (hcov : ∀ k, k < n → annPosOK doc method ann rstart rend onFlag (pos + k) = true) :
    annRegionsOK doc method ann rstart rend (appendRetain ops n) ((0 : Nat), false) = true ∧
    annState (appendRetain ops n) (0, false) = (pos + n, onFlag) := by
  rcases appendRetain_shape ops n with ⟨init, l, hops, heq⟩ | ⟨-, heq⟩ <;> rw [heq]
  · subst hops
    rcases hini : annState init (0, false) with ⟨p0, o0⟩
    rw [annState_concat, hini] at hst
    simp only [annStateStep, Prod.mk.injEq] at hst
    obtain ⟨hp0, ho0⟩ := hst
    rw [annRegionsOK_append, hini, Bool.and_eq_true] at hok
    obtain ⟨hok1, hok2⟩ := hok
    simp only [annRegionsOK, Bool.and_true, List.all_eq_true, List.mem_range] at hok2
    constructor
    · rw [annRegionsOK_append, hini, hok1]
      simp only [annRegionsOK, Bool.and_true, Bool.true_and, List.all_eq_true,
        List.mem_range]
      intro k hk
      by_cases hkl : k < l
      · exact hok2 k hkl
      · have hc := hcov (k - l) (by omega)
        rw [ho0]
        rwa [show pos + (k - l) = p0 + k by omega] at hc
    · rw [annState_concat, hini]
      simp only [annStateStep]
      rw [ho0]
      have hpn : p0 + (l + n) = pos + n := by omega
      rw [hpn]
  · constructor
    · rw [annRegionsOK_append, hok, hst]
      simp only [annRegionsOK, Bool.and_true, Bool.true_and, List.all_eq_true,
        List.mem_range]
      intro k hk
      exact hcov k hk
    · rw [annState_concat, hst]
      simp [annStateStep]

theorem annPairOK_not_start (o : Option Operation) (m b : String) (a : Annot)
    (hb : (b == "start") = false) :
    annPairOK o (Operation.annotate m b a) = true := by
  rcases o with - | op
  · rfl
  · cases op <;> simp [annPairOK, hb]

/-- Pushing the pending span and then an annotate boundary preserves
the annotation-region invariants and moves the walk state past the
span. -/
theorem pushRetain_annotate_regions (doc : Document) (method : String) (ann : Annot)
    (rstart rend : Nat) (tx : Transaction) (span pos : Nat) (onFlag : Bool)
    (m b : String) (a : Annot)
    (hst : annState tx.operations (0, false) = (pos, onFlag))
    (hok : annRegionsOK doc method ann rstart rend tx.operations ((0 : Nat), false) = true)
    (hcov : ∀ k, k < span → annPosOK doc method ann rstart rend onFlag (pos + k) = true)
    (hns : noStopStartAdjacent tx.operations = true)
    (hpair : b = "start" → 1 ≤ span ∨ tx.operations = []) :
    ∃ tx1, tx.pushRetain (span : Int) = Except.ok tx1 ∧
      annState (tx1.operations ++ [Operation.annotate m b a]) (0, false) =
        (pos + span, b == "start") ∧
      annRegionsOK doc method ann rstart rend
        (tx1.operations ++ [Operation.annotate m b a]) ((0 : Nat), false) = true ∧
      noStopStartAdjacent (tx1.operations ++ [Operation.annotate m b a]) = true := by
  rw [pushRetain_natCast]
  by_cases hz : span = 0
  · rw [if_pos hz]
    refine ⟨tx, rfl, ?_, ?_, ?_⟩
    · rw [annState_concat, hst]
      subst hz
      simp [annStateStep]
    · exact annRegionsOK_concat_annotate doc method ann rstart rend _ m b a _ hok
    · rw [noStopStartAdjacent_concat, hns]
      by_cases hb : b = "start"
      · rcases hpair hb with hs | hemp
        · omega
        · rw [hemp]
          rfl
      · rw [annPairOK_not_start _ _ _ _ (by simpa using hb)]
        rfl
  · rw [if_neg hz]
    obtain ⟨hokA, hstA⟩ := annRegionsOK_appendRetain doc method ann rstart rend
      tx.operations span pos onFlag hst hok hcov
    refine ⟨_, rfl, ?_, ?_, ?_⟩
    · rw [annState_concat]
      show annStateStep _ (annState (appendRetain tx.operations span) (0, false)) = _
      rw [hstA]
      simp [annStateStep]
    · exact annRegionsOK_concat_annotate doc method ann rstart rend _ m b a _ hokA
    · show noStopStartAdjacent (appendRetain tx.operations span ++
        [Operation.annotate m b a]) = true
      rw [noStopStartAdjacent_concat, noStopStartAdjacent_appendRetain _ _ hns]
      obtain ⟨lr, hlr⟩ := appendRetain_getLast_retain tx.operations span
      rw [hlr]
      rfl

/-- Invariant of the annotation loop for the region discipline: the
walk state tracks the cursor minus the pending span; every retained
position inside an annotating span is eligible content and no eligible
in-range position is passed over un-annotated; no stop-annotate is ever
immediately followed by a start-annotate. -/
theorem annLoop_regions (doc : Document) (method : String) (ann : Annot)
    (rstart rend : Nat) :
    ∀ (n i span : Nat) (onFlag : Bool) (tx : Transaction) (span' : Nat) (on' : Bool)
      (tx' : Transaction),
      annLoop doc method ann n i span onFlag tx = Except.ok (span', on', tx') →
      i + n = rend →
      span ≤ i →
      annState tx.operations (0, false) = (i - span, onFlag) →
      annRegionsOK doc method ann rstart rend tx.operations ((0 : Nat), false) = true →
      (∀ k, k < span → annPosOK doc method ann rstart rend onFlag (i - span + k) = true) →
      noStopStartAdjacent tx.operations = true →
      (onFlag = false → 1 ≤ span ∨ tx.operations = []) →
      span' ≤ rend ∧
      annState tx'.operations (0, false) = (rend - span', on') ∧
      annRegionsOK doc method ann rstart rend tx'.operations ((0 : Nat), false) = true ∧
      (∀ k, k < span' → annPosOK doc method ann rstart rend on' (rend - span' + k) = true) ∧
      noStopStartAdjacent tx'.operations = true ∧
      (on' = false → 1 ≤ span' ∨ tx'.operations = []) := by
  intro n
  induction n with
  | zero =>
    intro i span onFlag tx span' on' tx' h hin hsi hst hok hpend hns hJ
    simp only [annLoop, Except.ok.injEq, Prod.mk.injEq] at h
    obtain ⟨h1, h2, h3⟩ := h
    subst h1
    subst h2
    subst h3
    have hieq : i = rend := by omega
    subst hieq
    exact ⟨hsi, hst, hok, hpend, hns, hJ⟩
  | succ n ih =>
    intro i span onFlag tx span' on' tx' h hin hsi hst hok hpend hns hJ
    simp only [annLoop] at h
    cases hdata : doc.data[i]? with
    | none =>
      simp only [hdata] at h
      simp at h
    | some item =>
      cases item with
      | element t attrs =>
        have he : annEligible doc method ann i = false := by
          simp [annEligible, hdata]
        simp only [hdata] at h
        cases onFlag with
        | true =>
          rw [if_pos rfl] at h
          obtain ⟨tx1, hpr, hstA, hokA, hnsA⟩ := pushRetain_annotate_regions doc method ann
            rstart rend tx span (i - span) true method "stop" ann hst hok hpend hns
            (fun hb => absurd hb (by decide))
          simp only [hpr] at h
          refine ih (i + 1) 1 false _ span' on' tx' h (by omega) (by omega) ?_ hokA ?_ hnsA
            (fun _ => Or.inl (by omega))
          · show annState (tx1.operations ++ [Operation.annotate method "stop" ann])
              (0, false) = (i + 1 - 1, false)
            rw [hstA]
            have h1 : i - span + span = i + 1 - 1 := by omega
            rw [h1]
            rfl
          · intro k hk
            have hk0 : k = 0 := by omega
            subst hk0
            have h1 : i + 1 - 1 + 0 = i := by omega
            rw [h1]
            simp [annPosOK, he]
        | false =>
          rw [if_neg (by decide)] at h
          refine ih (i + 1) (span + 1) false tx span' on' tx' h (by omega) (by omega) ?_
            hok ?_ hns (fun _ => Or.inl (by omega))
          · rw [hst]
            have h1 : i - span = i + 1 - (span + 1) := by omega
            rw [h1]
          · intro k hk
            by_cases hks : k < span
            · have := hpend k hks
              rwa [show i - span + k = i + 1 - (span + 1) + k by omega] at this
            · have hkeq : k = span := by omega
              have h1 : i + 1 - (span + 1) + k = i := by omega
              rw [h1]
              simp [annPosOK, he]
      | content c =>
        simp only [hdata] at h
        by_cases hcond : ((doc.offsetContainsAnnot i ann && method == "set") ||
            (!doc.offsetContainsAnnot i ann && method == "clear")) = true
        · have he : annEligible doc method ann i = false := by
            simp only [annEligible, hdata]
            rw [hcond]
            decide
          rw [if_pos hcond] at h
          cases onFlag with
          | true =>
            rw [if_pos rfl] at h
            obtain ⟨tx1, hpr, hstA, hokA, hnsA⟩ := pushRetain_annotate_regions doc method ann
              rstart rend tx span (i - span) true method "stop" ann hst hok hpend hns
              (fun hb => absurd hb (by decide))
            simp only [hpr] at h
            refine ih (i + 1) 1 false _ span' on' tx' h (by omega) (by omega) ?_ hokA ?_
              hnsA (fun _ => Or.inl (by omega))
            · show annState (tx1.operations ++ [Operation.annotate method "stop" ann])
                (0, false) = (i + 1 - 1, false)
              rw [hstA]
              have h1 : i - span + span = i + 1 - 1 := by omega
              rw [h1]
              rfl
            · intro k hk
              have hk0 : k = 0 := by omega
              subst hk0
              have h1 : i + 1 - 1 + 0 = i := by omega
              rw [h1]
              simp [annPosOK, he]
          | false =>
            rw [if_neg (by decide)] at h
            refine ih (i + 1) (span + 1) false tx span' on' tx' h (by omega) (by omega) ?_
              hok ?_ hns (fun _ => Or.inl (by omega))
            · rw [hst]
              have h1 : i - span = i + 1 - (span + 1) := by omega
              rw [h1]
            · intro k hk
              by_cases hks : k < span
              · have := hpend k hks
                rwa [show i - span + k = i + 1 - (span + 1) + k by omega] at this
              · have hkeq : k = span := by omega
                have h1 : i + 1 - (span + 1) + k = i := by omega
                rw [h1]
                simp [annPosOK, he]
        · have hcondf : ((doc.offsetContainsAnnot i ann && method == "set") ||
              (!doc.offsetContainsAnnot i ann && method == "clear")) = false := by
            simpa using hcond
          have he : annEligible doc method ann i = true := by
            simp only [annEligible, hdata]
            rw [hcondf]
            decide
          rw [if_neg hcond] at h
          cases onFlag with
          | false =>
            simp only [Bool.not_false] at h
            rw [if_pos trivial] at h
            obtain ⟨tx1, hpr, hstA, hokA, hnsA⟩ := pushRetain_annotate_regions doc method ann
              rstart rend tx span (i - span) false method "start" ann hst hok hpend hns
              (fun _ => hJ rfl)
            simp only [hpr] at h
            refine ih (i + 1) 1 true _ span' on' tx' h (by omega) (by omega) ?_ hokA ?_
              hnsA (fun hfalse => by cases hfalse)
            · show annState (tx1.operations ++ [Operation.annotate method "start" ann])
                (0, false) = (i + 1 - 1, true)
              rw [hstA]
              have h1 : i - span + span = i + 1 - 1 := by omega
              rw [h1]
              rfl
            · intro k hk
              have hk0 : k = 0 := by omega
              subst hk0
              have h1 : i + 1 - 1 + 0 = i := by omega
              rw [h1]
              simp [annPosOK, he]
          | true =>
            rw [if_neg (by decide)] at h
            refine ih (i + 1) (span + 1) true tx span' on' tx' h (by omega) (by omega) ?_
              hok ?_ hns (fun hfalse => by cases hfalse)
            · rw [hst]
              have h1 : i - span = i + 1 - (span + 1) := by omega
              rw [h1]
            · intro k hk
              by_cases hks : k < span
              · have := hpend k hks
                rwa [show i - span + k = i + 1 - (span + 1) + k by omega] at this
              · have hkeq : k = span := by omega
                have h1 : i + 1 - (span + 1) + k = i := by omega
                rw [h1]
                simp [annPosOK, he]

theorem annPosOK_off_out_of_range (doc : Document) (method : String) (ann : Annot)
    (rstart rend j : Nat) (h : j < rstart ∨ rend ≤ j) :
    annPosOK doc method ann rstart rend false j = true := by
  simp only [annPosOK]
  rw [if_neg (by decide)]
  rcases h with h | h
  · rw [show decide (rstart ≤ j) = false from by rw [decide_eq_false_iff_not]; omega]
    simp
  · rw [show decide (j < rend) = false from by rw [decide_eq_false_iff_not]; omega]
    simp

theorem pushRetainNat_regions (doc : Document) (method : String) (ann : Annot)
    (rstart rend : Nat) (tx : Transaction) (m pos : Nat) (onFlag : Bool)
    (hst : annState tx.operations (0, false) = (pos, onFlag))
    (hok : annRegionsOK doc method ann rstart rend tx.operations ((0 : Nat), false) = true)
    (hcov : ∀ k, k < m → annPosOK doc method ann rstart rend onFlag (pos + k) = true)
    (hns : noStopStartAdjacent tx.operations = true) :
    ∃ tx1, tx.pushRetain (m : Int) = Except.ok tx1 ∧
      annState tx1.operations (0, false) = (pos + m, onFlag) ∧
      annRegionsOK doc method ann rstart rend tx1.operations ((0 : Nat), false) = true ∧
      noStopStartAdjacent tx1.operations = true := by
  rw [pushRetain_natCast]
  by_cases hz : m = 0
  · rw [if_pos hz]
    subst hz
    exact ⟨tx, rfl, by simpa using hst, hok, hns⟩
  · rw [if_neg hz]
    obtain ⟨hokA, hstA⟩ := annRegionsOK_appendRetain doc method ann rstart rend
      tx.operations m pos onFlag hst hok hcov
    exact ⟨_, rfl, hstA, hokA, noStopStartAdjacent_appendRetain _ _ hns⟩

/-! Claim theorems. -/

/-- Claim C9: `pushRetain` fails on every negative length, is a no-op
on length 0, and coalesces into a trailing retain; `pushReplace` with
two empty arrays appends nothing and leaves `lengthDifference`
unchanged, and otherwise appends one replace operation and adds
`insert.length - remove.length` to `lengthDifference`. -/
theorem C9_push_accumulators :
    (∀ (tx : Transaction) (z : Int), z < 0 →
      tx.pushRetain z =
        Except.error ("Invalid retain length, can not retain backwards:" ++ toString z)) ∧
    (∀ tx : Transaction, tx.pushRetain 0 = Except.ok tx) ∧
    (∀ (tx tx' : Transaction) (init : List Operation) (l : Nat) (n : Int), 0 < n →
      tx.operations = init ++ [Operation.retain l] →
      tx.pushRetain n = Except.ok tx' →
      tx'.operations = init ++ [Operation.retain (l + n.toNat)]) ∧
    (∀ tx : Transaction, tx.pushReplace [] [] = tx) ∧
    (∀ (tx : Transaction) (rm ins : List Item), rm ≠ [] ∨ ins ≠ [] →
      (tx.pushReplace rm ins).operations = tx.operations ++ [Operation.replace rm ins] ∧
      (tx.pushReplace rm ins).lengthDifference =
        tx.lengthDifference + ((ins.length : Int) - (rm.length : Int))) := by
  refine ⟨?_, ?_, ?_, ?_, ?_⟩
  · intro tx z hz
    unfold Transaction.pushRetain
    rw [if_pos hz]
  · intro tx
    unfold Transaction.pushRetain
    norm_num
  · intro tx tx' init l n hn hops h
    obtain ⟨-, htx'⟩ := pushRetain_ok_inv tx tx' n h
    rw [if_neg (by omega)] at htx'
    rw [htx', hops, appendRetain_concat_retain]
  · intro tx
    exact pushReplace_nil_nil tx
  · intro tx rm ins h
    rw [pushReplace_ne tx rm ins h]
    exact ⟨rfl, rfl⟩

/-- Witness for C9 at concrete inputs: a retain of -1 fails, a retain
of 0 appends nothing, a retain of 3 coalesces into a trailing retain 2,
an empty replace is dropped, and a one-for-two replace appends and
changes `lengthDifference` by -1. -/
theorem C9_push_accumulators_witness :
    (Transaction.fresh.pushRetain (-1) =
      Except.error ("Invalid retain length, can not retain backwards:" ++ toString (-1 : Int))) ∧
    (({ operations := [Operation.retain 2], lengthDifference := 0 } :
        Transaction).pushRetain 0 =
      Except.ok { operations := [Operation.retain 2], lengthDifference := 0 }) ∧
    (({ operations := [Operation.retain 5], lengthDifference := 0 } :
        Transaction).operations = [] ++ [Operation.retain (2 + (3 : Int).toNat)]) ∧
    (({ operations := [], lengthDifference := 4 } : Transaction).pushReplace [] [] =
      { operations := [], lengthDifference := 4 }) ∧
    (({ operations := [], lengthDifference := 0 } : Transaction).pushReplace
        [Item.content 'a', Item.content 'b'] [Item.content 'c']).operations =
      [] ++ [Operation.replace [Item.content 'a', Item.content 'b'] [Item.content 'c']] :=
  ⟨C9_push_accumulators.1 Transaction.fresh (-1) (by decide),
   C9_push_accumulators.2.1 _,
   C9_push_accumulators.2.2.1
     { operations := [Operation.retain 2], lengthDifference := 0 }
     { operations := [Operation.retain 5], lengthDifference := 0 }
     [] 2 3 (by decide) rfl rfl,
   C9_push_accumulators.2.2.2.1 _,
   (C9_push_accumulators.2.2.2.2 _ [Item.content 'a', Item.content 'b'] [Item.content 'c']
     (Or.inl (by simp))).1⟩

/-- Claim C2: on the spec's example document, inserting `['b']` at
offset 2 produces exactly `[retain 2, replace([], ['b']), retain 1]`
with `lengthDifference` 1; in general `newFromInsertion` emits a retain
of `offset`, a replace inserting the fixed-up insertion, and a retain
of `data.length - offset` (the boundary retains vanishing at length 0
as `pushRetain` prescribes). -/
theorem C2_newFromInsertion :
    (newFromInsertion paraDoc 2 [Item.content 'b'] =
      Except.ok { operations := [Operation.retain 2,
                    Operation.replace [] [Item.content 'b'], Operation.retain 1],
                  lengthDifference := 1 }) ∧
    (∀ (doc : Document) (offset : Nat) (insertion : List Item),
      offset ≤ doc.data.length →
      doc.fixupInsertion insertion offset ≠ [] →
      newFromInsertion doc offset insertion =
        Except.ok { operations := optRetain offset ++
                        Operation.replace [] (doc.fixupInsertion insertion offset) ::
                          optRetain (doc.data.length - offset),
                      lengthDifference :=
                        ((doc.fixupInsertion insertion offset).length : Int) }) := by
  constructor
  · rfl
  · intro doc offset insertion hle hfix
    unfold newFromInsertion
    simp only [fresh_pushRetain_natCast]
    rw [pushReplace_ne _ _ _ (Or.inr hfix)]
    rw [pushRetain_append_replace _ (optRetain offset) _ _ rfl _ _ hle]
    simp

/-- Witness for C2's general clause at a concrete input: inserting two
characters at offset 1 of the example paragraph document. -/
theorem C2_newFromInsertion_witness :
    newFromInsertion paraDoc 1 [Item.content 'x', Item.content 'y'] =
      Except.ok { operations := [Operation.retain 1,
                    Operation.replace [] [Item.content 'x', Item.content 'y'],
                    Operation.retain 2],
                  lengthDifference := 2 } :=
  C2_newFromInsertion.2 paraDoc 1 [Item.content 'x', Item.content 'y']
    (by decide) (by decide)

/-- Counterexample to Claim C3 as stated: on a document with empty
linear data and an empty range, `newFromRemoval` returns a transaction
with no operations at all, not one whose only operation is a retain of
the (zero) document length. -/
theorem C3_counterexample :
    newFromRemoval emptyDoc { start := 0, end_ := 0 } =
      Except.ok { operations := [], lengthDifference := 0 } ∧
    newFromRemoval emptyDoc { start := 0, end_ := 0 } ≠
      Except.ok { operations := [Operation.retain 0], lengthDifference := 0 } := by
  refine ⟨rfl, fun h => ?_⟩
  have h0 : (Except.ok { operations := ([] : List Operation), lengthDifference := (0 : Int) } :
      Except String Transaction) =
      Except.ok { operations := [Operation.retain 0], lengthDifference := 0 } := by
    rw [← h]; rfl
  simp at h0

/-- Claim C3 as amended: for every document and every range that is
empty after normalization, `newFromRemoval` returns a transaction whose
`lengthDifference` is 0 and whose operations are a single retain of the
full document length when the document is non-empty, and nothing at all
when the document is empty (`pushRetain` drops zero lengths). -/
theorem C3_amended_empty_range (doc : Document) (range : VeRange)
    (h : range.normalize.start = range.normalize.end_) :
    newFromRemoval doc range =
      Except.ok { operations := optRetain doc.data.length, lengthDifference := 0 } := by
  unfold newFromRemoval
  simp only [h, if_pos rfl]
  rw [pushRetain_natCast]
  by_cases hlen : doc.data.length = 0
  · simp [hlen, optRetain, Transaction.fresh]
  · simp [hlen, optRetain, Transaction.fresh, appendRetain]

/-- Witness for the amended C3 at a concrete input: a one-character
document and the empty range at offset 1. -/
theorem C3_amended_empty_range_witness :
    newFromRemoval (mkDoc [Item.content 'a']) { start := 1, end_ := 1 } =
      Except.ok { operations := [Operation.retain 1], lengthDifference := 0 } :=
  C3_amended_empty_range (mkDoc [Item.content 'a']) { start := 1, end_ := 1 } rfl

/-- Claim C5: a range that is non-empty after normalization but whose
`covered`-mode selection is empty makes `newFromRemoval` fail with the
invalid-range error; the `Except.error` result carries no transaction. -/
theorem C5_empty_selection (doc : Document) (range : VeRange)
    (hne : range.normalize.start ≠ range.normalize.end_)
    (hsel : doc.selectNodes range.normalize "covered" = []) :
    newFromRemoval doc range =
      Except.error ("Invalid range, cannot remove from " ++
        toString range.normalize.start ++ " to " ++ toString range.normalize.end_) := by
  unfold newFromRemoval
  simp only [if_neg hne]
  rw [hsel]

/-- Witness for C5 at a concrete input: the inert document's selection
is always empty. -/
theorem C5_empty_selection_witness :
    (({ start := 0, end_ := 1 } : VeRange).normalize.start ≠
      ({ start := 0, end_ := 1 } : VeRange).normalize.end_) ∧
    newFromRemoval (mkDoc [Item.content 'a']) { start := 0, end_ := 1 } =
      Except.error "Invalid range, cannot remove from 0 to 1" :=
  ⟨by decide,
   C5_empty_selection (mkDoc [Item.content 'a']) { start := 0, end_ := 1 } (by decide) rfl⟩

/-- Counterexample to Claim C7 as stated: changing an attribute of the
element at offset 0 yields `[attributeChange, retain 3]`; there is no
leading retain operation (a zero-length retain is never recorded), so
the operations are not `retain(offset)` followed by the attribute
change and the trailing retain. -/
theorem C7_counterexample :
    newFromAttributeChange attrDoc 0 "style" (some "number") =
      Except.ok { operations := [Operation.attrChange "style" (some "bullet") (some "number"),
                    Operation.retain 3],
                  lengthDifference := 0 } ∧
    newFromAttributeChange attrDoc 0 "style" (some "number") ≠
      Except.ok { operations := [Operation.retain 0,
                    Operation.attrChange "style" (some "bullet") (some "number"),
                    Operation.retain 3],
                  lengthDifference := 0 } := by
  refine ⟨rfl, fun h => ?_⟩
  have h0 : (Except.ok { operations := [Operation.attrChange "style" (some "bullet")
                             (some "number"), Operation.retain 3],
                           lengthDifference := (0 : Int) } : Except String Transaction) =
      Except.ok { operations := [Operation.retain 0,
                    Operation.attrChange "style" (some "bullet") (some "number"),
                    Operation.retain 3],
                  lengthDifference := 0 } := by
    rw [← h]; rfl
  simp at h0

/-- Claim C7 as amended: `newFromAttributeChange` fails with the
non-element error when the item at `offset` is content, with the
closing-element error when its type begins with a slash, and otherwise
returns a retain of `offset` (omitted when `offset` is 0, since zero
retains are never recorded), an attribute-change operation carrying the
key, the element's current value of that attribute (absent when the
element has no attribute map), and the new value, followed by a retain
over the rest of the document. -/
theorem C7_amended_newFromAttributeChange :
    (∀ (doc : Document) (offset : Nat) (key : String) (value : Option String) (ch : Char),
      doc.data[offset]? = some (Item.content ch) →
      newFromAttributeChange doc offset key value =
        Except.error "Can not set attributes to non-element data") ∧
    (∀ (doc : Document) (offset : Nat) (key : String) (value : Option String)
        (t : String) (attrs : Option (List (String × String))),
      doc.data[offset]? = some (Item.element t attrs) →
      t.data.head? = some '/' →
      newFromAttributeChange doc offset key value =
        Except.error "Can not set attributes on closing element") ∧
    (∀ (doc : Document) (offset : Nat) (key : String) (value : Option String)
        (t : String) (attrs : Option (List (String × String))),
      doc.data[offset]? = some (Item.element t attrs) →
      t.data.head? ≠ some '/' →
      newFromAttributeChange doc offset key value =
        Except.ok { operations := optRetain offset ++
                      Operation.attrChange key (attrs.bind fun m => m.lookup key) value ::
                        optRetain (doc.data.length - offset),
                    lengthDifference := 0 }) := by
  refine ⟨?_, ?_, ?_⟩
  · intro doc offset key value ch hoff
    unfold newFromAttributeChange
    simp only [hoff]
  · intro doc offset key value t attrs hoff hsl
    unfold newFromAttributeChange
    simp only [hoff, hsl, if_true]
  · intro doc offset key value t attrs hoff hsl
    have hlt : offset < doc.data.length := by
      by_contra hge
      push_neg at hge
      rw [List.getElem?_eq_none hge] at hoff
      cases hoff
    unfold newFromAttributeChange
    simp only [hoff]
    rw [if_neg hsl]
    simp only [fresh_pushRetain_natCast]
    unfold Transaction.pushReplaceElementAttribute
    rw [pushRetain_append_op _ (optRetain offset)
      (Operation.attrChange key (attrs.bind fun m => m.lookup key) value) rfl
      (by intro l hl; cases hl) _ _ (by omega)]
    simp

/-- Witness for the amended C7 at concrete inputs: the error cases at a
content offset and at a closing-marker offset, and the success case at
a positive element offset with no attribute map. -/
theorem C7_amended_newFromAttributeChange_witness :
    (newFromAttributeChange attrDoc 1 "style" (some "x") =
      Except.error "Can not set attributes to non-element data") ∧
    (newFromAttributeChange attrDoc 2 "style" (some "x") =
      Except.error "Can not set attributes on closing element") ∧
    (newFromAttributeChange paraDoc 0 "style" (some "x") =
      Except.ok { operations := [Operation.attrChange "style" none (some "x"),
                    Operation.retain 3],
                  lengthDifference := 0 }) :=
  ⟨C7_amended_newFromAttributeChange.1 attrDoc 1 "style" (some "x") 'a' rfl,
   C7_amended_newFromAttributeChange.2.1 attrDoc 2 "style" (some "x") "/listItem" none rfl rfl,
   C7_amended_newFromAttributeChange.2.2 paraDoc 0 "style" (some "x") "paragraph" none rfl
     (by simp)⟩

/-- Counterexample to Claim C4 as stated: in the mixed-coverage merge
case (first node fully covered, last node partially covered), the
removal starts at the first node's inner range start (2), not at its
outer range start (1) as the claim prescribes for a fully covered
node. -/
theorem C4_counterexample :
    mergeFirstEntry.range = none ∧
    mergeFirstEntry.nodeOuterRange.start = 1 ∧
    newFromRemoval mergeDocMixed { start := 1, end_ := 7 } =
      Except.ok { operations := [Operation.retain 2,
                    Operation.replace (List.replicate 5 (Item.content 'x')) [],
                    Operation.retain 3],
                  lengthDifference := -5 } ∧
    newFromRemoval mergeDocMixed { start := 1, end_ := 7 } ≠
      Except.ok { operations := [Operation.retain 1,
                    Operation.replace (List.replicate 6 (Item.content 'x')) [],
                    Operation.retain 3],
                  lengthDifference := -6 } := by
  refine ⟨rfl, rfl, rfl, fun h => ?_⟩
  have h0 : (Except.ok { operations := [Operation.retain 2,
                             Operation.replace (List.replicate 5 (Item.content 'x')) [],
                             Operation.retain 3],
                           lengthDifference := (-5 : Int) } : Except String Transaction) =
      Except.ok { operations := [Operation.retain 1,
                    Operation.replace (List.replicate 6 (Item.content 'x')) [],
                    Operation.retain 3],
                  lengthDifference := -6 } := by
    rw [← h]; rfl
  simp at h0

/-- Claim C4 as amended: in the mergeable case `newFromRemoval` emits a
single contiguous replace, spanning the merge points the code computes:
the outer ranges when both end nodes are fully covered, and otherwise,
for each end node, its covered sub-range if it is partially covered or
its inner node range if it is fully covered. -/
theorem C4_amended_merge (doc : Document) (range : VeRange) (first : SelectionEntry)
    (rest : List SelectionEntry)
    (hne : range.normalize.start ≠ range.normalize.end_)
    (hsel : doc.selectNodes range.normalize "covered" = first :: rest)
    (hmerge : doc.canBeMergedWith first.node (rest.getLastD first).node = true)
    (hlt : (mergePoints first (rest.getLastD first)).1 <
      (mergePoints first (rest.getLastD first)).2)
    (hlen : (mergePoints first (rest.getLastD first)).2 ≤ doc.data.length) :
    ∃ tx, newFromRemoval doc range = Except.ok tx ∧
      tx.operations = optRetain (mergePoints first (rest.getLastD first)).1 ++
        Operation.replace (jsSlice doc.data (mergePoints first (rest.getLastD first)).1
            (mergePoints first (rest.getLastD first)).2) [] ::
          optRetain (doc.data.length - (mergePoints first (rest.getLastD first)).2) ∧
      tx.operations.countP (fun op => isReplaceOp op) = 1 := by
  unfold newFromRemoval
  simp only [if_neg hne, hsel]
  simp only [hmerge, if_true]
  have hsne : jsSlice doc.data (mergePoints first (rest.getLastD first)).1
      (mergePoints first (rest.getLastD first)).2 ≠ [] :=
    jsSlice_ne_nil _ _ _ hlt hlen
  simp only [fresh_pushRetain_natCast]
  rw [pushReplace_ne _ _ _ (Or.inl hsne)]
  rw [pushRetain_append_replace _ (optRetain (mergePoints first (rest.getLastD first)).1)
    _ _ rfl _ _ hlen]
  refine ⟨_, rfl, by simp, ?_⟩
  simp only [List.countP_append, List.countP_cons, countP_isReplaceOp_optRetain]
  simp [isReplaceOp, countP_isReplaceOp_optRetain]

/-- Witness for the amended C4 at a concrete input: the mixed-coverage
mergeable document, range `[1, 7)`. -/
theorem C4_amended_merge_witness :
    ∃ tx, newFromRemoval mergeDocMixed { start := 1, end_ := 7 } = Except.ok tx ∧
      tx.operations = optRetain 2 ++
        Operation.replace (jsSlice mergeDocMixed.data 2 7) [] :: optRetain 3 ∧
      tx.operations.countP (fun op => isReplaceOp op) = 1 :=
  C4_amended_merge mergeDocMixed { start := 1, end_ := 7 } mergeFirstEntry [mergeLastEntry]
    (by decide) rfl rfl (by decide) (by decide)

/-- Claim C6: in the non-mergeable case, walking the covered selection
in order, each fully covered entry contributes its node outer range and
each partially covered entry its covered sub-range (`entrySpan`); spans
where one span's end equals the next span's start are coalesced into a
single replace (`coalesceSpans`), and gap-separated spans become
separate replaces with a retain covering exactly each gap
(`removalOpsFrom`). -/
theorem C6_mixed_removal (doc : Document) (range : VeRange) (first : SelectionEntry)
    (rest : List SelectionEntry)
    (hne : range.normalize.start ≠ range.normalize.end_)
    (hsel : doc.selectNodes range.normalize "covered" = first :: rest)
    (hmerge : doc.canBeMergedWith first.node (rest.getLastD first).node = false)
    (hchain : strictSpanChainB doc.data.length 0 ((first :: rest).map entrySpan) = true) :
    ∃ tx, newFromRemoval doc range = Except.ok tx ∧
      tx.operations =
        removalOpsFrom doc.data doc.data.length
          (coalesceSpans ((first :: rest).map entrySpan)) 0 := by
  unfold newFromRemoval
  simp only [if_neg hne, hsel]
  simp only [hmerge, Bool.false_eq_true, if_false]
  rcases hsp : entrySpan first with ⟨s0, e0⟩
  have hmap : (first :: rest).map entrySpan = (s0, e0) :: rest.map entrySpan := by
    simp [hsp]
  rw [hmap] at hchain ⊢
  simp only [strictSpanChainB, Bool.and_eq_true, decide_eq_true_eq] at hchain
  obtain ⟨⟨h0s, hs0e0⟩, hch⟩ := hchain
  obtain ⟨tx1, off1, rs1, re1, init, hloop, hco, hops, hoff, hl, hle1, hle2, hle3⟩ :=
    removalLoop_ops doc.data (rest.map entrySpan) Transaction.fresh 0 s0 e0 rfl h0s hs0e0 hch
  simp only [removalLoop, hloop]
  have hpr := pushRetain_lastReplaceOrEmpty tx1 hl rs1 off1 hle1
  simp only [hpr]
  have hsne : jsSlice doc.data rs1 re1 ≠ [] := jsSlice_ne_nil _ _ _ hle2 hle3
  have hrops : (({ tx1 with operations := tx1.operations ++ optRetain (rs1 - off1) } :
      Transaction).pushReplace (jsSlice doc.data rs1 re1) []).operations =
      (tx1.operations ++ optRetain (rs1 - off1)) ++
        [Operation.replace (jsSlice doc.data rs1 re1) []] := by
    rw [pushReplace_ne _ _ _ (Or.inl hsne)]
  have hfin := pushRetain_lastReplaceOrEmpty
    (({ tx1 with operations := tx1.operations ++ optRetain (rs1 - off1) } :
      Transaction).pushReplace (jsSlice doc.data rs1 re1) [])
    (by rw [hrops]; exact lastIsReplaceOrEmpty_concat_replace _ _ _)
    doc.data.length re1 hle3
  rw [hfin]
  refine ⟨_, rfl, ?_⟩
  simp only [coalesceSpans, hco]
  rw [removalOpsFrom_append_last, hrops]
  simp only [hops, ← hoff, Transaction.fresh]
  simp [List.append_assoc]

/-- Claim C1: for every transaction any of the five static builders
returns, the sum of its retain lengths and its replace remove lengths
(`consumedLength`) equals the length of the document's data.  The
removal clause assumes the selection well-formedness a real document
guarantees (`removalSelectionOK`), and the conversion clause assumes
every branch's outer range spans exactly its markers plus content. -/
theorem C1_sum_invariant :
    (∀ (doc : Document) (offset : Nat) (insertion : List Item) (tx : Transaction),
      newFromInsertion doc offset insertion = Except.ok tx →
      consumedLength tx.operations = doc.data.length) ∧
    (∀ (doc : Document) (range : VeRange) (tx : Transaction),
      removalSelectionOK doc range = true →
      newFromRemoval doc range = Except.ok tx →
      consumedLength tx.operations = doc.data.length) ∧
    (∀ (doc : Document) (offset : Nat) (key : String) (value : Option String)
        (tx : Transaction),
      newFromAttributeChange doc offset key value = Except.ok tx →
      consumedLength tx.operations = doc.data.length) ∧
    (∀ (doc : Document) (range : VeRange) (method : String) (ann : Annot)
        (tx : Transaction),
      newFromAnnotation doc range method ann = Except.ok tx →
      consumedLength tx.operations = doc.data.length) ∧
    (∀ (doc : Document) (range : VeRange) (type : String)
        (attr : Option (List (String × String))) (tx : Transaction),
      (∀ b, (doc.getOuterRange b).end_ = (doc.getOuterRange b).start + doc.getLength b + 2) →
      newFromContentBranchConversion doc range type attr = Except.ok tx →
      consumedLength tx.operations = doc.data.length) :=
  ⟨newFromInsertion_consumed,
   fun doc range tx hWF h => newFromRemoval_consumed doc range tx hWF h,
   fun doc offset key value tx h => (newFromAttributeChange_props doc offset key value tx h).1,
   fun doc range method ann tx h => ( newFromAnnotation_props doc range method ann tx h).1,
   fun doc range type attr tx hBR h =>
     newFromContentBranchConversion_consumed doc range type attr tx hBR h⟩

/-- Witness for C1, evaluating each builder at a concrete input and
checking the sum against the concrete document length. -/
theorem C1_sum_invariant_witness :
    (consumedLength [Operation.retain 2, Operation.replace [] [Item.content 'b'],
      Operation.retain 1] = paraDoc.data.length) ∧
    (removalSelectionOK removalSelDoc { start := 1, end_ := 5 } = true ∧
      consumedLength [Operation.retain 1,
        Operation.replace [Item.content 'b', Item.content 'c'] [], Operation.retain 1,
        Operation.replace [Item.content 'e'] [], Operation.retain 1] =
        removalSelDoc.data.length) ∧
    (consumedLength [Operation.attrChange "style" (some "bullet") (some "number"),
      Operation.retain 3] = attrDoc.data.length) ∧
    (consumedLength [Operation.annotate "set" "start" { type := "bold" },
      Operation.retain 5, Operation.annotate "set" "stop" { type := "bold" }] =
      annDoc.data.length) ∧
    (consumedLength [Operation.replace [Item.element "paragraph" none]
        [Item.element "heading" none], Operation.retain 2,
      Operation.replace [Item.element "/paragraph" none] [Item.element "/heading" none]] =
      convDoc.data.length) :=
  ⟨C1_sum_invariant.1 paraDoc 2 [Item.content 'b']
     { operations := [Operation.retain 2, Operation.replace [] [Item.content 'b'],
         Operation.retain 1], lengthDifference := 1 } rfl,
   ⟨by decide,
    C1_sum_invariant.2.1 removalSelDoc { start := 1, end_ := 5 }
      { operations := [Operation.retain 1,
          Operation.replace [Item.content 'b', Item.content 'c'] [], Operation.retain 1,
          Operation.replace [Item.content 'e'] [], Operation.retain 1],
        lengthDifference := -3 } (by decide) rfl⟩,
   C1_sum_invariant.2.2.1 attrDoc 0 "style" (some "number")
     { operations := [Operation.attrChange "style" (some "bullet") (some "number"),
         Operation.retain 3], lengthDifference := 0 } rfl,
   C1_sum_invariant.2.2.2.1 annDoc { start := 0, end_ := 5 } "set" { type := "bold" }
     { operations := [Operation.annotate "set" "start" { type := "bold" },
         Operation.retain 5, Operation.annotate "set" "stop" { type := "bold" }],
       lengthDifference := 0 } rfl,
   C1_sum_invariant.2.2.2.2 convDoc { start := 1, end_ := 3 } "heading" none
     { operations := [Operation.replace [Item.element "paragraph" none]
           [Item.element "heading" none], Operation.retain 2,
         Operation.replace [Item.element "/paragraph" none] [Item.element "/heading" none]],
       lengthDifference := 0 } (fun b => rfl) rfl⟩

/-- Claim C10: transactions built by `newFromAttributeChange` and
`newFromAnnotation` contain no replace operation at all, and their
`lengthDifference` is 0: applying them never changes the length of the
document's linear data. -/
theorem C10_no_replace_frame :
    (∀ (doc : Document) (offset : Nat) (key : String) (value : Option String)
        (tx : Transaction),
      newFromAttributeChange doc offset key value = Except.ok tx →
      tx.operations.all (fun op => !isReplaceOp op) = true ∧ tx.lengthDifference = 0) ∧
    (∀ (doc : Document) (range : VeRange) (method : String) (ann : Annot)
        (tx : Transaction),
      newFromAnnotation doc range method ann = Except.ok tx →
      tx.operations.all (fun op => !isReplaceOp op) = true ∧ tx.lengthDifference = 0) :=
  ⟨fun doc offset key value tx h =>
     ⟨(newFromAttributeChange_props doc offset key value tx h).2.2,
      (newFromAttributeChange_props doc offset key value tx h).2.1⟩,
   fun doc range method ann tx h =>
     ⟨( newFromAnnotation_props doc range method ann tx h).2.2,
      ( newFromAnnotation_props doc range method ann tx h).2.1⟩⟩

/-- Witness for C10 at concrete inputs: an attribute change and an
annotation over the example documents. -/
theorem C10_no_replace_frame_witness :
    (([Operation.attrChange "style" (some "bullet") (some "number"),
        Operation.retain 3].all (fun op => !isReplaceOp op) = true ∧ (0 : Int) = 0)) ∧
    (([Operation.annotate "set" "start" { type := "bold" }, Operation.retain 5,
        Operation.annotate "set" "stop" { type := "bold" }].all
          (fun op => !isReplaceOp op) = true ∧ (0 : Int) = 0)) :=
  ⟨C10_no_replace_frame.1 attrDoc 0 "style" (some "number")
     { operations := [Operation.attrChange "style" (some "bullet") (some "number"),
         Operation.retain 3], lengthDifference := 0 } rfl,
   C10_no_replace_frame.2 annDoc { start := 0, end_ := 5 } "set" { type := "bold" }
     { operations := [Operation.annotate "set" "start" { type := "bold" },
         Operation.retain 5, Operation.annotate "set" "stop" { type := "bold" }],
       lengthDifference := 0 } rfl⟩

/-- Claim C8: in every transaction `newFromAnnotation` returns, a
position retained while the annotating flag is up is always eligible
content (in particular never an element marker, so no start/stop pair
brackets a span containing one), a position retained while the flag is
down is never eligible content inside the range (so maximal eligible
runs are fully covered), and no stop-annotating operation is
immediately followed by a start-annotating one (so no run is split
into two pairs); the spec's 5-character example yields exactly one
start, one retain of 5, and one stop. -/
theorem C8_annotation_spans :
    (∀ (doc : Document) (range : VeRange) (method : String) (ann : Annot) (tx : Transaction),
      newFromAnnotation doc range method ann = Except.ok tx →
      annRegionsOK doc method ann range.normalize.start range.normalize.end_
        tx.operations ((0 : Nat), false) = true ∧
      noStopStartAdjacent tx.operations = true) ∧
    ( newFromAnnotation annDoc { start := 0, end_ := 5 } "set" { type := "bold" } =
      Except.ok { operations := [Operation.annotate "set" "start" { type := "bold" },
                    Operation.retain 5, Operation.annotate "set" "stop" { type := "bold" }],
                  lengthDifference := 0 }) := by
  constructor
  · intro doc range method ann tx h
    simp only [ newFromAnnotation] at h
    cases hloop : annLoop doc method ann (range.normalize.end_ - range.normalize.start)
        range.normalize.start range.normalize.start false Transaction.fresh with
    | error e =>
      rw [hloop] at h
      simp at h
    | ok res =>
      rcases res with ⟨span', on', tx'⟩
      simp only [hloop] at h
      have hnorm := normalize_start_le range
      obtain ⟨hsp, hstL, hokL, hpendL, hnsL, hJL⟩ := annLoop_regions doc method ann
        range.normalize.start range.normalize.end_
        (range.normalize.end_ - range.normalize.start)
        range.normalize.start range.normalize.start false Transaction.fresh span' on' tx'
        hloop (by omega) (le_refl _)
        (by simp [annState, Transaction.fresh])
        rfl
        (by
          intro k hk
          exact annPosOK_off_out_of_range doc method ann _ _ _ (Or.inl (by omega)))
        rfl
        (fun _ => Or.inr rfl)
      obtain ⟨tx1, hpr, hst1, hok1, hns1⟩ := pushRetainNat_regions doc method ann
        range.normalize.start range.normalize.end_ tx' span'
        (range.normalize.end_ - span') on' hstL hokL hpendL hnsL
      rw [show range.normalize.end_ - span' + span' = range.normalize.end_ by omega] at hst1
      simp only [hpr] at h
      cases on' with
      | true =>
        rw [if_pos rfl] at h
        have hst2 : annState (tx1.pushStopAnnotating method ann).operations (0, false) =
            (range.normalize.end_, false) := by
          show annState (tx1.operations ++ [Operation.annotate method "stop" ann])
            (0, false) = _
          rw [annState_concat, hst1]
          rfl
        have hok2 : annRegionsOK doc method ann range.normalize.start range.normalize.end_
            (tx1.pushStopAnnotating method ann).operations ((0 : Nat), false) = true :=
          annRegionsOK_concat_annotate doc method ann _ _ _ method "stop" ann _ hok1
        have hns2 : noStopStartAdjacent (tx1.pushStopAnnotating method ann).operations =
            true := by
          show noStopStartAdjacent (tx1.operations ++
            [Operation.annotate method "stop" ann]) = true
          rw [noStopStartAdjacent_concat, hns1, annPairOK_stop]
          rfl
        obtain ⟨hge, htx⟩ := pushRetain_ok_inv _ _ _ h
        by_cases hz : ((doc.data.length : Int) - (range.normalize.end_ : Int)) = 0
        · rw [if_pos hz] at htx
          rw [htx]
          exact ⟨hok2, hns2⟩
        · rw [if_neg hz] at htx
          obtain ⟨hokA, -⟩ := annRegionsOK_appendRetain doc method ann
            range.normalize.start range.normalize.end_
            (tx1.pushStopAnnotating method ann).operations
            ((doc.data.length : Int) - (range.normalize.end_ : Int)).toNat
            range.normalize.end_ false hst2 hok2
            (by
              intro k hk
              exact annPosOK_off_out_of_range doc method ann _ _ _ (Or.inr (by omega)))
          rw [htx]
          exact ⟨hokA, noStopStartAdjacent_appendRetain _ _ hns2⟩
      | false =>
        rw [if_neg (by decide)] at h
        obtain ⟨hge, htx⟩ := pushRetain_ok_inv _ _ _ h
        by_cases hz : ((doc.data.length : Int) - (range.normalize.end_ : Int)) = 0
        · rw [if_pos hz] at htx
          rw [htx]
          exact ⟨hok1, hns1⟩
        · rw [if_neg hz] at htx
          obtain ⟨hokA, -⟩ := annRegionsOK_appendRetain doc method ann
            range.normalize.start range.normalize.end_ tx1.operations
            ((doc.data.length : Int) - (range.normalize.end_ : Int)).toNat
            range.normalize.end_ false hst1 hok1
            (by
              intro k hk
              exact annPosOK_off_out_of_range doc method ann _ _ _ (Or.inr (by omega)))
          rw [htx]
          exact ⟨hokA, noStopStartAdjacent_appendRetain _ _ hns1⟩
  · rfl

/-- Witness for C8's universal clause at a concrete input: the
5-character run, method `set`. -/
theorem C8_annotation_spans_witness :
    annRegionsOK annDoc "set" { type := "bold" } 0 5
      [Operation.annotate "set" "start" { type := "bold" }, Operation.retain 5,
        Operation.annotate "set" "stop" { type := "bold" }] ((0 : Nat), false) = true ∧
    noStopStartAdjacent [Operation.annotate "set" "start" { type := "bold" },
      Operation.retain 5, Operation.annotate "set" "stop" { type := "bold" }] = true :=
  C8_annotation_spans.1 annDoc { start := 0, end_ := 5 } "set" { type := "bold" }
    { operations := [Operation.annotate "set" "start" { type := "bold" },
        Operation.retain 5, Operation.annotate "set" "stop" { type := "bold" }],
      lengthDifference := 0 } rfl

/-- Witness for C6 at a concrete input: the two-entry selection
document and range `[1, 5)`; the two spans `[1, 3)` and `[4, 5)` stay
separate, with a retain covering the one-item gap. -/
theorem C6_mixed_removal_witness :
    (strictSpanChainB removalSelDoc.data.length 0
      (([removalEntry1, removalEntry2]).map entrySpan) = true) ∧
    ∃ tx, newFromRemoval removalSelDoc { start := 1, end_ := 5 } = Except.ok tx ∧
      tx.operations =
        removalOpsFrom removalSelDoc.data removalSelDoc.data.length
          (coalesceSpans (([removalEntry1, removalEntry2]).map entrySpan)) 0 :=
  ⟨by decide,
   C6_mixed_removal removalSelDoc { start := 1, end_ := 5 } removalEntry1 [removalEntry2]
     (by decide) rfl rfl (by decide)⟩

end VeDm
